import Mathlib

/-!
Verification of the schema combinator engine of the `footgun` validation
library (`src/schema.ts`, with its collaborators `src/result.ts`,
`src/option.ts`, `src/util.ts` and the ordered-sequence container
`src/list.ts`).

The embedding is untyped, mirroring the dynamically-typed runtime: JavaScript
values are modelled by `Footgun.JSVal`, schemas by the deep syntax
`Footgun.SchemaExpr` (one constructor per schema builder of `schema.ts`), and
every `parse` function is translated into the interpreter `Footgun.parse`.
JavaScript exceptions are modelled by the `Except String` layer: the partial
`Result` accessors (`unwrap`, `unwrapErr`) and the construction-time failure
of `coerce` land in `Except.error`, so "never throws" is a provable statement
rather than a typing accident.
-/

namespace Footgun

/-- Model of a JavaScript number: either a finite value (modelled by a
rational, which covers every numeric literal appearing in schemas), NaN, or
one of the two infinities. -/
inductive JSNum where
  | finite (q : ℚ)
  | nan
  | posInf
  | negInf
deriving DecidableEq

/-- Model of `Number.isFinite`. -/
def JSNum.isFinite : JSNum → Bool
  | .finite _ => true
  | _ => false

/-- Model of `Number.isInteger`. -/
def JSNum.isInteger : JSNum → Bool
  | .finite q => q.den == 1
  | _ => false

/-- Model of the JavaScript runtime values the validation engine can
encounter: primitives, `Date` instances (carrying their timestamp), arrays,
plain objects (ordered field lists), and instances of the library's own
`List` and `Option` container classes, which appear as parse outputs. Plain
objects come in two kinds, distinguished because the `String()`/`Number()`
casts treat them differently: `obj` is a record with the base
`Object.prototype` (an ordinary object literal), while `objNull` is a
prototype-less record (`Object.create(null)`) — the kind the object
validator itself outputs — which has no callable `toString`/`valueOf`. -/
inductive JSVal where
  | str (s : String)
  | num (n : JSNum)
  | bool (b : Bool)
  | date (time : JSNum)
  | null
  | undefined
  | arr (elems : List JSVal)
  | obj (fields : List (String × JSVal))
  | objNull (fields : List (String × JSVal))
  | listInst (elems : List JSVal)
  | optInst (v : Option JSVal)

/-- Translation of `isString` from `util.ts`. -/
def isString : JSVal → Bool
  | .str _ => true
  | _ => false

/-- Translation of `isNumber` from `util.ts`. -/
def isNumber : JSVal → Bool
  | .num _ => true
  | _ => false

/-- Translation of `isBoolean` from `util.ts`. -/
def isBoolean : JSVal → Bool
  | .bool _ => true
  | _ => false

/-- Translation of `isArray` from `util.ts` (`Array.isArray`). -/
def isArray : JSVal → Bool
  | .arr _ => true
  | _ => false

/-- Translation of `isDate` from `util.ts` (`input instanceof Date`). -/
def isDate : JSVal → Bool
  | .date _ => true
  | _ => false

/-- Translation of `isObject` from `util.ts`: accepts exactly the values whose
prototype is `null` or `Object.prototype`, i.e. plain objects; arrays, dates
and class instances (the `List`/`Option` containers) are rejected. -/
def isObject : JSVal → Bool
  | .obj _ => true
  | .objNull _ => true
  | _ => false

/-- Translation of `isDefined` from `util.ts`:
`!isNull(input) && !isUndefined(input)`. -/
def isDefined : JSVal → Bool
  | .null => false
  | .undefined => false
  | _ => true

/-- Translation of property access `input[key]` on a plain object: the first
own property with that key, or `undefined` when the key is absent. -/
def getProp (v : JSVal) (key : String) : JSVal :=
  match v with
  | .obj fields =>
    match fields.lookup key with
    | some x => x
    | none => .undefined
  | .objNull fields =>
    match fields.lookup key with
    | some x => x
    | none => .undefined
  | _ => .undefined

/-- Translation of the two-variant `Result` class of `result.ts`. -/
inductive Result (T E : Type) where
  | Ok (value : T)
  | Err (error : E)

namespace Result

/-- Translation of `Result.isOk`. -/
def isOk : Result T E → Bool
  | .Ok _ => true
  | .Err _ => false

/-- Translation of `Result.isErr`. -/
def isErr : Result T E → Bool
  | .Ok _ => false
  | .Err _ => true

/-- Translation of `Result.map`. -/
def map (f : T → U) : Result T E → Result U E
  | .Ok v => .Ok (f v)
  | .Err e => .Err e

/-- Translation of `Result.mapErr`. -/
def mapErr (f : E → F) : Result T E → Result T F
  | .Ok v => .Ok v
  | .Err e => .Err (f e)

/-- Translation of `Result.unwrap`, whose `Err` branch raises; the raise is
modelled by `Except.error`. -/
def unwrap : Result T E → Except String T
  | .Ok v => .ok v
  | .Err _ => .error "called Result.unwrap on an Err value"

/-- Translation of `Result.unwrapErr`, whose `Ok` branch raises; the raise is
modelled by `Except.error`. -/
def unwrapErr : Result T E → Except String E
  | .Ok _ => .error "called Result.unwrapErr on an Ok value"
  | .Err e => .ok e

end Result

/-- Translation of the `ParseError` record of `schema.ts`. -/
structure ParseError where
  path : List String
  message : String
  input : JSVal

/-- Translation of `createErr` from `schema.ts`. -/
def createErr (message : String) (input : JSVal) : Result JSVal ParseError :=
  .Err { path := [], message := message, input := input }

/-- Translation of `runPipeline` from `schema.ts`: the loop body checks
`isErr`, returns the failing result as is, and otherwise unwraps into the
accumulator; the partial `unwrap` lives in the `Except` layer. -/
def runPipeline {T : Type} (value : T) :
    List (T → Result T String) → Except String (Result T String)
  | [] => .ok (.Ok value)
  | pipe :: rest => do
    let result := pipe value
    if result.isErr then
      return result
    else do
      let acc ← result.unwrap
      runPipeline acc rest

/-- Deep embedding of the string refinement pipes exported by `schema.ts`
(`minLength`, `maxLength`, `trim`, `lowercase`, `uppercase`, `email`), each
carrying the message its factory was given. -/
inductive StrPipe where
  | minLength (n : Nat) (message : String)
  | maxLength (n : Nat) (message : String)
  | trim
  | lowercase
  | uppercase
  | email (message : String)

/-- Characters admitted by the local part of `EMAIL_REGEX` (letters, digits,
and the literal specials of the character class; the apostrophe, backtick and
braces are written by code point). -/
def emailLocalChar (c : Char) : Bool :=
  c.isAlphanum ||
    [Char.ofNat 46, Char.ofNat 33, Char.ofNat 35, Char.ofNat 36, Char.ofNat 37,
     Char.ofNat 38, Char.ofNat 39, Char.ofNat 42, Char.ofNat 43, Char.ofNat 47,
     Char.ofNat 61, Char.ofNat 63, Char.ofNat 94, Char.ofNat 95, Char.ofNat 96,
     Char.ofNat 123, Char.ofNat 124, Char.ofNat 125, Char.ofNat 126,
     Char.ofNat 45].contains c

/-- Characters admitted by a domain label of `EMAIL_REGEX`. -/
def emailDomainChar (c : Char) : Bool :=
  c.isAlphanum || c == Char.ofNat 45

/-- Translation of the `email` pipe's acceptance test: `EMAIL_REGEX.test`
(one `@`, non-empty local part over the local character class, dot-separated
non-empty alphanumeric-or-hyphen domain labels) conjoined with the two index
checks of the source (`indexOf("@") !== 0` and
`lastIndexOf(".") > indexOf("@")`, the latter forcing a dot inside the
domain). -/
def emailCheck (s : String) : Bool :=
  match s.splitOn "@" with
  | [localPart, domain] =>
    let labels := domain.splitOn "."
    !localPart.isEmpty && localPart.toList.all emailLocalChar &&
      labels.all (fun l => !l.isEmpty && l.toList.all emailDomainChar) &&
      decide (2 ≤ labels.length)
  | _ => false

/-- Interpretation of a string pipe, translated from the corresponding
factories in `schema.ts`. -/
def evalStrPipe : StrPipe → String → Result String String
  | .minLength n message => fun input =>
    if input.length < n then .Err message else .Ok input
  | .maxLength n message => fun input =>
    if input.length > n then .Err message else .Ok input
  | .trim => fun input => .Ok input.trim
  | .lowercase => fun input => .Ok input.toLower
  | .uppercase => fun input => .Ok input.toUpper
  | .email message => fun input =>
    if emailCheck input then .Ok input else .Err message

/-- Deep embedding of the numeric refinement pipes exported by `schema.ts`
(`min`, `max`, `integer`, `clamp`); the numeric parameters are finite
JavaScript numbers, modelled by rationals. -/
inductive NumPipe where
  | min (m : ℚ) (message : String)
  | max (m : ℚ) (message : String)
  | integer (message : String)
  | clamp (lo hi : ℚ)

/-- Interpretation of a numeric pipe, translated from the corresponding
factories in `schema.ts`; `clamp` is `Math.max(min, Math.min(max, input))`
and never fails. -/
def evalNumPipe : NumPipe → ℚ → Result ℚ String
  | .min m message => fun input => if input < m then .Err message else .Ok input
  | .max m message => fun input => if input > m then .Err message else .Ok input
  | .integer message => fun input =>
    if input.den = 1 then .Ok input else .Err message
  | .clamp lo hi => fun input => .Ok (max lo (min hi input))

/-- The message of the TypeError raised by the ToPrimitive operation when a
cast meets an object with no callable `toString` or `valueOf`. -/
def typeErrorMessage : String :=
  "TypeError: Cannot convert object to primitive value"

/-- Modelled JavaScript builtin: the value of one digit character in the
given base (decimal digits plus the hexadecimal letters). -/
def digitVal? (base : ℕ) (c : Char) : Option ℕ :=
  let v :=
    if c.isDigit then some (c.toNat - 48)
    else if 'a' ≤ c && c ≤ 'f' then some (c.toNat - 87)
    else if 'A' ≤ c && c ≤ 'F' then some (c.toNat - 55)
    else none
  match v with
  | some d => if d < base then some d else none
  | none => none

/-- Modelled JavaScript builtin: a non-empty run of digits in the given
base, read as a natural number. -/
def parseDigits? (base : ℕ) (cs : List Char) : Option ℕ :=
  if cs.isEmpty then none
  else
    cs.foldl
      (fun acc c => do
        let a ← acc
        let d ← digitVal? base c
        return a * base + d)
      (some 0)

/-- Modelled JavaScript builtin: the optional exponent suffix of a decimal
numeric literal (`e`/`E`, optional sign, digits); an absent suffix is
exponent zero and a malformed one rejects the literal. -/
def parseExponent? : List Char → Option Int
  | [] => some 0
  | c :: rest =>
    if c == 'e' || c == 'E' then
      match rest with
      | '+' :: ds => do
        let n ← parseDigits? 10 ds
        return (n : Int)
      | '-' :: ds => do
        let n ← parseDigits? 10 ds
        return -(n : Int)
      | ds => do
        let n ← parseDigits? 10 ds
        return (n : Int)
    else none

/-- Modelled JavaScript builtin: an unsigned decimal numeric literal of the
StringNumericLiteral grammar — integer digits, optional fraction, optional
exponent, with at least one digit in the mantissa — as an exact rational. -/
def parseDecimal? (cs : List Char) : Option ℚ :=
  let ip := cs.takeWhile Char.isDigit
  let rest := cs.dropWhile Char.isDigit
  match rest with
  | '.' :: rest2 =>
    let fp := rest2.takeWhile Char.isDigit
    let rest3 := rest2.dropWhile Char.isDigit
    if ip.isEmpty && fp.isEmpty then none
    else do
      let e ← parseExponent? rest3
      let iv : ℕ := (parseDigits? 10 ip).getD 0
      let fv : ℕ := (parseDigits? 10 fp).getD 0
      let mantissa : ℚ := (iv : ℚ) + (fv : ℚ) / ((10 : ℚ) ^ fp.length)
      return mantissa * (10 : ℚ) ^ e
  | _ =>
    if ip.isEmpty then none
    else do
      let e ← parseExponent? rest
      let iv ← parseDigits? 10 ip
      return (iv : ℚ) * (10 : ℚ) ^ e

/-- Modelled JavaScript builtin: a binary, octal or hexadecimal `Number()`
literal body (the part after the `0b`/`0o`/`0x` prefix). -/
def radixLiteral (base : ℕ) (ds : List Char) : JSNum :=
  match parseDigits? base ds with
  | some n => .finite n
  | none => .nan

/-- Modelled JavaScript builtin: a signed `Infinity` or decimal `Number()`
literal body. -/
def signedDecimal (sign : ℚ) (body : List Char) : JSNum :=
  if body == "Infinity".toList then
    if sign < 0 then .negInf else .posInf
  else
    match parseDecimal? body with
    | some q => .finite (sign * q)
    | none => .nan

/-- Modelled JavaScript builtin: the string-to-number conversion performed
by `Number()` on strings (the StringNumericLiteral grammar): the trimmed
empty string is 0; unsigned binary/octal/hexadecimal literals; optionally
signed `Infinity` or decimal literals with fraction and exponent; anything
else is NaN. Values are exact rationals rather than rounded doubles. -/
def stringToNumber (s : String) : JSNum :=
  let t := s.trim
  if t.isEmpty then .finite 0
  else
    match t.toList with
    | '0' :: 'x' :: ds => radixLiteral 16 ds
    | '0' :: 'X' :: ds => radixLiteral 16 ds
    | '0' :: 'o' :: ds => radixLiteral 8 ds
    | '0' :: 'O' :: ds => radixLiteral 8 ds
    | '0' :: 'b' :: ds => radixLiteral 2 ds
    | '0' :: 'B' :: ds => radixLiteral 2 ds
    | '+' :: body => signedDecimal 1 body
    | '-' :: body => signedDecimal (-1) body
    | body => signedDecimal 1 body

/-- Modelled JavaScript builtin: the terminating decimal expansion of a
rational whose reduced denominator divides a power of ten — the case of
every number with an exact double representation. The minimal power is
used, so there are no trailing zeros, matching the shortest rendering
JavaScript prints. Other denominators have no terminating expansion and
return none. -/
def decimalString (q : ℚ) : Option String :=
  match (List.range (q.den + 1)).find? (fun k => (10 ^ k) % q.den == 0) with
  | some k =>
    if k = 0 then some (toString q.num)
    else
      let scaled : Int := q.num * ((10 : Int) ^ k) / (q.den : Int)
      let ds := toString scaled.natAbs
      let padded := String.mk (List.replicate (k + 1 - ds.length) '0') ++ ds
      let chars := padded.toList
      let ipart := String.mk (chars.take (chars.length - k))
      let fpart := String.mk (chars.drop (chars.length - k))
      some ((if q.num < 0 then "-" else "") ++ ipart ++ "." ++ fpart)
  | none => none

/-- Modelled JavaScript builtin: the decimal rendering of a number used by
`String()`. Finite values with a terminating decimal expansion (every
exactly-representable double) render as that expansion; the exponent forms
JavaScript uses for very large or very small magnitudes are not modelled;
rationals outside the double-representable shape keep a symbolic quotient
spelling; the non-finite values use their JavaScript names. -/
def JSNum.toStr : JSNum → String
  | .finite q =>
    match decimalString q with
    | some s => s
    | none => toString q.num ++ "/" ++ toString q.den
  | .nan => "NaN"
  | .posInf => "Infinity"
  | .negInf => "-Infinity"

/-- Modelled JavaScript builtin: `Date.prototype.toString`. An invalid date
(non-finite timestamp) renders exactly as JavaScript's "Invalid Date"; the
rendering of a valid date depends on the host timezone and locale and is
modelled as an opaque spelling carrying the timestamp. -/
def dateToString : JSNum → String
  | .finite q => "Date(" ++ JSNum.toStr (.finite q) ++ ")"
  | _ => "Invalid Date"

mutual

/-- Modelled JavaScript builtin: the `String()` cast. Primitives render as
their JavaScript strings; arrays render as their comma-joined elements
(`Array.prototype.toString`); a plain object with the base prototype
renders as `[object Object]`, while a prototype-less record has no callable
`toString` or `valueOf`, so ToPrimitive raises a TypeError, modelled in the
exception layer; the library's `List` class defines `toString` as
`this.toArray().toString()`, the comma-joined elements, exactly like an
array; `Option` instances fall back to `[object Object]`; dates render
through `dateToString`. -/
def jsToString : JSVal → Except String String
  | .str s => .ok s
  | .num n => .ok n.toStr
  | .bool b => .ok (if b then "true" else "false")
  | .null => .ok "null"
  | .undefined => .ok "undefined"
  | .date t => .ok (dateToString t)
  | .arr elems => joinElems elems
  | .obj _ => .ok "[object Object]"
  | .objNull _ => .error typeErrorMessage
  | .listInst elems => joinElems elems
  | .optInst _ => .ok "[object Object]"
termination_by v => (sizeOf v, 0)

/-- Modelled JavaScript builtin: `Array.prototype.join(",")` as used by the
stringification of arrays and `List` instances; `null` and `undefined`
elements render empty, and a TypeError raised while stringifying an element
propagates. -/
def joinElems : List JSVal → Except String String
  | [] => .ok ""
  | [x] => joinElem x
  | x :: rest => do
    let s ← joinElem x
    let srest ← joinElems rest
    return s ++ "," ++ srest
termination_by elems => (sizeOf elems, 1)

/-- Modelled JavaScript builtin: the rendering of a single array element
inside `join`. -/
def joinElem : JSVal → Except String String
  | .null => .ok ""
  | .undefined => .ok ""
  | v => jsToString v
termination_by v => (sizeOf v, 2)

end

/-- Modelled JavaScript builtin: the `Number()` cast. Numbers pass through,
booleans and `null` convert to 1/0/0, `undefined` is NaN, strings go
through `stringToNumber`, dates convert to their timestamp, and the object
kinds convert through ToPrimitive: `Object.prototype.valueOf` is not
primitive, so they stringify and then read as numbers (plain base-prototype
objects become NaN via `[object Object]`; `List` instances read their
comma-joined elements), while a prototype-less record raises the
ToPrimitive TypeError. -/
def jsToNumber : JSVal → Except String JSNum
  | .num n => .ok n
  | .bool b => .ok (.finite (if b then 1 else 0))
  | .null => .ok (.finite 0)
  | .undefined => .ok .nan
  | .str s => .ok (stringToNumber s)
  | .date t => .ok t
  | v => do
    let s ← jsToString v
    return stringToNumber s

/-- Modelled JavaScript builtin: the `Boolean()` cast (truthiness). The falsy
values are `false`, `0`, `NaN`, the empty string, `null` and `undefined`;
every object is truthy. `Boolean()` never raises. -/
def jsTruthy : JSVal → Bool
  | .bool b => b
  | .num (.finite q) => !(q == 0)
  | .num .nan => false
  | .num _ => true
  | .str s => !s.isEmpty
  | .null => false
  | .undefined => false
  | _ => true

/-- Modelled JavaScript builtin: `new Date(x)` for a string or number
argument, as used by the date coercion; a non-finite numeric timestamp
produces an invalid date (NaN timestamp), and date-string parsing is
modelled abstractly through the numeric reading of the string. -/
def newDate : JSVal → JSVal
  | .num n => .date (if n.isFinite then n else .nan)
  | .str s => .date (stringToNumber s)
  | v => v

/-- Translation of the `boolean` entry of the COERCE registry:
`(isString(input) && ["on","yes","true"].includes(input.trim().toLowerCase()))
|| Boolean(input)`. -/
def coerceBool (input : JSVal) : Bool :=
  (match input with
   | .str s => ["on", "yes", "true"].contains s.trim.toLower
   | _ => false) || jsTruthy input

/-- Translation of the `number` entry of COERCE: `Number(input)`; the cast
may raise the ToPrimitive TypeError. -/
def coerceNumberFn (input : JSVal) : Except String JSVal := do
  let n ← jsToNumber input
  return .num n

/-- Translation of the `string` entry of COERCE: `String(input)`; the cast
may raise the ToPrimitive TypeError. -/
def coerceStringFn (input : JSVal) : Except String JSVal := do
  let s ← jsToString input
  return .str s

/-- Translation of the `date` entry of COERCE: build a date from a string or
number input, pass anything else through unchanged; never raises. -/
def coerceDateFn (input : JSVal) : Except String JSVal :=
  return (if isString input || isNumber input then newDate input else input)

/-- Translation of the `boolean` entry of COERCE as a registry function;
never raises. -/
def coerceBooleanFn (input : JSVal) : Except String JSVal :=
  return .bool (coerceBool input)

/-- Translation of the `list` entry of COERCE: wrap non-array input in a
one-element array; never raises. -/
def coerceListFn (input : JSVal) : Except String JSVal :=
  return (if isArray input then input else .arr [input])

/-- Translation of the fixed COERCE registry of `schema.ts`, keyed by schema
name; absent names have no entry. The registered functions live in the
exception layer because the string and number casts can raise. -/
def COERCE : String → Option (JSVal → Except String JSVal)
  | "number" => some coerceNumberFn
  | "string" => some coerceStringFn
  | "date" => some coerceDateFn
  | "boolean" => some coerceBooleanFn
  | "list" => some coerceListFn
  | _ => none

/-- The literal constants accepted by the `literal` builder, whose TypeScript
signature restricts them to `number | string | boolean`. -/
inductive LitVal where
  | num (n : JSNum)
  | str (s : String)
  | bool (b : Bool)
deriving DecidableEq

/-- The JavaScript value denoted by a literal constant. -/
def LitVal.toJSVal : LitVal → JSVal
  | .num n => .num n
  | .str s => .str s
  | .bool b => .bool b

/-- Modelled JavaScript builtin: `Object.is(constant, input)` for a
primitive constant; on numbers, strings and booleans it is value equality
(in particular NaN equals NaN). -/
def objectIs (constant : LitVal) (input : JSVal) : Bool :=
  match constant, input with
  | .num n, .num m => n == m
  | .str s, .str t => s == t
  | .bool a, .bool b => a == b
  | _, _ => false

/-- Deep embedding of the schema builders of `schema.ts`: one constructor per
builder, carrying exactly the arguments the builder closes over (pipelines,
messages, child schemas, shapes, default values). `pick`, `omit` and
`intersection` are not constructors because in the source they are functions
computing a new `object` schema. -/
inductive SchemaExpr where
  | string (pipeline : List StrPipe) (message : String)
  | number (pipeline : List NumPipe) (message : String)
  | boolean (message : String)
  | date (message : String)
  | literal (constant : LitVal) (message : String)
  | list (schema : SchemaExpr) (message : String)
  | object (shape : List (String × SchemaExpr)) (message : String)
  | tuple (schemas : List SchemaExpr) (message : String)
  | union (schemas : List SchemaExpr) (message : String)
  | optional (schema : SchemaExpr)
  | defaulted (schema : SchemaExpr) (defaultValue : JSVal)
  | coerce (schema : SchemaExpr)

/-- The `name` field of each schema value. The modifier builders `optional`,
`defaulted` and `coerce` spread the wrapped schema (`{...schema, parse}`), so
they inherit its name. -/
def name : SchemaExpr → String
  | .string _ _ => "string"
  | .number _ _ => "number"
  | .boolean _ => "boolean"
  | .date _ => "date"
  | .literal _ _ => "literal"
  | .list _ _ => "list"
  | .object _ _ => "object"
  | .tuple _ _ => "tuple"
  | .union _ _ => "union"
  | .optional s => name s
  | .defaulted s _ => name s
  | .coerce s => name s

/-- The default message of the `tuple` builder, computed from the member
schema names. -/
def tupleDefaultMessage (schemas : List SchemaExpr) : String :=
  "Expecting tuple of [" ++ String.intercalate ", " (schemas.map name) ++ "]"

/-- The default message of the `union` builder, computed from the member
schema names. -/
def unionDefaultMessage (schemas : List SchemaExpr) : String :=
  "Expecting one of " ++ String.intercalate ", " (schemas.map name)

mutual

/-- Construction-time effects of building a schema. Every builder except
`coerce` constructs without failure; `coerce(schema)` looks up
`COERCE[schema.name]` and throws `Cannot coerce type <name>` when the name is
not registered. Children are constructed before their parent, exactly as the
nested call expressions run in the source. -/
def build : SchemaExpr → Except String Unit
  | .string _ _ => .ok ()
  | .number _ _ => .ok ()
  | .boolean _ => .ok ()
  | .date _ => .ok ()
  | .literal _ _ => .ok ()
  | .list s _ => build s
  | .object shape _ => buildShape shape
  | .tuple ss _ => buildAll ss
  | .union ss _ => buildAll ss
  | .optional s => build s
  | .defaulted s _ => build s
  | .coerce s => do
    build s
    match COERCE (name s) with
    | none => .error ("Cannot coerce type " ++ name s)
    | some _ => .ok ()
termination_by s => (sizeOf s, 0)

/-- Construction of every child schema of an object shape. -/
def buildShape : List (String × SchemaExpr) → Except String Unit
  | [] => .ok ()
  | (_, c) :: rest => do
    build c
    buildShape rest
termination_by shape => (sizeOf shape, 0)

/-- Construction of every schema in a list (tuple and union members). -/
def buildAll : List SchemaExpr → Except String Unit
  | [] => .ok ()
  | s :: rest => do
    build s
    buildAll rest
termination_by ss => (sizeOf ss, 0)

end

/-- Outcome of a parse call: the `Result` returned through the outcome
channel, under the `Except` layer that models thrown exceptions. -/
abbrev ParseResult := Result JSVal ParseError

mutual

/-- The parse interpreter, translated case by case from the `parse` closures
of `schema.ts`. Fallible `Result` accessors and the `coerce` registry lookup
live in the `Except` layer. -/
def parse : SchemaExpr → JSVal → Except String ParseResult
  | .string pipeline message => fun input =>
    match input with
    | .str s => do
      let r ← runPipeline s (pipeline.map evalStrPipe)
      return (r.map JSVal.str).mapErr fun m =>
        { path := [], message := m, input := input }
    | _ => return createErr message input
  | .number pipeline message => fun input =>
    match input with
    | .num (.finite q) => do
      let r ← runPipeline q (pipeline.map evalNumPipe)
      return (r.map fun v => JSVal.num (.finite v)).mapErr fun m =>
        { path := [], message := m, input := input }
    | _ => return createErr message input
  | .boolean message => fun input =>
    return if isBoolean input then .Ok input else createErr message input
  | .date message => fun input =>
    match input with
    | .date (.finite t) => return .Ok (.date (.finite t))
    | _ => return createErr message input
  | .literal constant message => fun input =>
    return if objectIs constant input then .Ok input else createErr message input
  | .list schema message => fun input =>
    match input with
    | .arr elems => do
      let r ← parseElems schema elems 0
      return r.map JSVal.listInst
    | _ => return createErr message input
  | .object shape message => fun input =>
    if isObject input then do
      let r ← parseShape shape input
      return r.map JSVal.objNull
    else
      return createErr message input
  | .tuple schemas message => fun input =>
    match input with
    | .arr elems => do
      let r ← parseTupleElems elems schemas 0
      return r.map JSVal.arr
    | _ => return createErr message input
  | .union schemas message => fun input => parseUnion schemas message input
  | .optional schema => fun input =>
    if !isDefined input then
      return .Ok (.optInst none)
    else do
      let r ← parse schema input
      return r.map fun v => JSVal.optInst (some v)
  | .defaulted schema defaultValue => fun input =>
    if isDefined input then parse schema input else return .Ok defaultValue
  | .coerce schema => fun input =>
    match COERCE (name schema) with
    | none => .error ("Cannot coerce type " ++ name schema)
    | some coerceFn => do
      let coerced ← coerceFn input
      parse schema coerced
termination_by s => (sizeOf s, 0)

/-- Translation of the element loop of `list(...).parse`: index order,
fail-fast with the stringified index prepended to the failing element's
path, collecting validated elements in order. -/
def parseElems (schema : SchemaExpr) :
    List JSVal → Nat → Except String (Result (List JSVal) ParseError)
  | [], _ => return .Ok []
  | x :: rest, i => do
    let result ← parse schema x
    if result.isErr then do
      let err ← result.unwrapErr
      return .Err { err with path := toString i :: err.path }
    else do
      let v ← result.unwrap
      let r ← parseElems schema rest (i + 1)
      return r.map fun vs => v :: vs
termination_by elems _ => (sizeOf schema, elems.length + 1)

/-- Translation of the field loop of `object(...).parse`: shape keys in
declared order, each looked up on the input (absent keys read as
`undefined`), fail-fast with the field name prepended to the failing child's
path, assembling the output fields in shape order. -/
def parseShape :
    List (String × SchemaExpr) → JSVal →
      Except String (Result (List (String × JSVal)) ParseError)
  | [], _ => return .Ok []
  | (key, child) :: rest, input => do
    let result ← parse child (getProp input key)
    if result.isErr then do
      let err ← result.unwrapErr
      return .Err { err with path := key :: err.path }
    else do
      let v ← result.unwrap
      let r ← parseShape rest input
      return r.map fun fields => (key, v) :: fields
termination_by shape _ => (sizeOf shape, 0)

/-- Translation of the position loop of `tuple(...).parse`: positions `0`
through `schemas.length - 1`, each read with `input[i]` (missing positions
read as `undefined`), fail-fast with the stringified index prepended. -/
def parseTupleElems (elems : List JSVal) :
    List SchemaExpr → Nat → Except String (Result (List JSVal) ParseError)
  | [], _ => return .Ok []
  | schema :: rest, i => do
    let result ← parse schema (elems.getD i .undefined)
    if result.isErr then do
      let err ← result.unwrapErr
      return .Err { err with path := toString i :: err.path }
    else do
      let v ← result.unwrap
      let r ← parseTupleElems elems rest (i + 1)
      return r.map fun vs => v :: vs
termination_by schemas _ => (sizeOf schemas, 0)

/-- Translation of the member loop of `union(...).parse`: members in declared
order, returning the first successful result verbatim, and synthesizing the
single generic error when every member has failed. -/
def parseUnion : List SchemaExpr → String → JSVal → Except String ParseResult
  | [], message, input => return createErr message input
  | schema :: rest, message, input => do
    let result ← parse schema input
    if result.isOk then
      return result
    else
      parseUnion rest message input
termination_by schemas _ _ => (sizeOf schemas, 0)

end

/-- Translation of `pick` from `schema.ts`: the new shape keeps exactly the
entries of the original shape whose key is in `keys`, copying the child
schema references unchanged, and the result is built by the `object`
builder with the given message. -/
def pick (shape : List (String × SchemaExpr)) (keys : List String)
    (message : String) : SchemaExpr :=
  .object (shape.filter fun kc => keys.contains kc.1) message

/-- Translation of `omit` from `schema.ts` (`omit` is a Lean keyword, hence
the name `omitS`): the new shape keeps exactly the entries of the original
shape whose key is not in `keys`. -/
def omitS (shape : List (String × SchemaExpr)) (keys : List String)
    (message : String) : SchemaExpr :=
  .object (shape.filter fun kc => !keys.contains kc.1) message

/-- Call-level view of `pick`, making its frame condition expressible in the
embedding: the source body only reads the original `schema.shape`
(`Object.keys`, `includes`, indexing) and writes into a fresh `nextShape`,
so the state of the original shape after the call is the shape itself; the
pair returns that post-call state alongside the constructed schema. -/
def pickCall (shape : List (String × SchemaExpr)) (keys : List String)
    (message : String) : List (String × SchemaExpr) × SchemaExpr :=
  (shape, pick shape keys message)

/-- Call-level view of `omit`; see `pickCall`. -/
def omitCall (shape : List (String × SchemaExpr)) (keys : List String)
    (message : String) : List (String × SchemaExpr) × SchemaExpr :=
  (shape, omitS shape keys message)

/-- Translation of property assignment `target[key] = value` on a shape
object: overwrite in place when the key exists, append otherwise. -/
def setShapeProp :
    List (String × SchemaExpr) → String → SchemaExpr →
      List (String × SchemaExpr)
  | [], key, s => [(key, s)]
  | (k, c) :: rest, key, s =>
    if k == key then (k, s) :: rest else (k, c) :: setShapeProp rest key s

/-- Translation of `Object.assign(target, source)` on shapes: assign each
source entry in order. -/
def assignShape (base extra : List (String × SchemaExpr)) :
    List (String × SchemaExpr) :=
  extra.foldl (fun acc kc => setShapeProp acc kc.1 kc.2) base

/-- Translation of `intersection` from `schema.ts`:
`object(Object.assign({}, ...shapes), message)`, merging the member shapes
left to right with last-write-wins on key collision. -/
def intersection (shapes : List (List (String × SchemaExpr)))
    (message : String) : SchemaExpr :=
  .object (shapes.foldl assignShape []) message

section EvaluationLemmas

/-! Small-step evaluation lemmas for the `Result` accessors and the `Except`
monad operations, used to compute the interpreter on concrete inputs and to
reason about its branches. -/

@[simp] theorem Result.isOk_Ok (v : T) : (Result.Ok (E := E) v).isOk = true := rfl

@[simp] theorem Result.isOk_Err (e : E) : (Result.Err (T := T) e).isOk = false := rfl

@[simp] theorem Result.isErr_Ok (v : T) : (Result.Ok (E := E) v).isErr = false := rfl

@[simp] theorem Result.isErr_Err (e : E) : (Result.Err (T := T) e).isErr = true := rfl

@[simp] theorem Result.map_Ok (f : T → U) (v : T) :
    (Result.Ok (E := E) v).map f = .Ok (f v) := rfl

@[simp] theorem Result.map_Err (f : T → U) (e : E) :
    (Result.Err (T := T) e).map f = .Err e := rfl

@[simp] theorem Result.mapErr_Ok (f : E → F) (v : T) :
    (Result.Ok (E := E) v).mapErr f = .Ok v := rfl

@[simp] theorem Result.mapErr_Err (f : E → F) (e : E) :
    (Result.Err (T := T) e).mapErr f = .Err (f e) := rfl

@[simp] theorem Result.unwrap_Ok (v : T) : (Result.Ok (E := E) v).unwrap = .ok v := rfl

@[simp] theorem Result.unwrap_Err (e : E) :
    (Result.Err (T := T) e).unwrap =
      .error "called Result.unwrap on an Err value" := rfl

@[simp] theorem Result.unwrapErr_Ok (v : T) :
    (Result.Ok (E := E) v).unwrapErr =
      .error "called Result.unwrapErr on an Ok value" := rfl

@[simp] theorem Result.unwrapErr_Err (e : E) :
    (Result.Err (T := T) e).unwrapErr = .ok e := rfl

@[simp] theorem exceptPureEq (a : α) : (pure a : Except ε α) = .ok a := rfl

@[simp] theorem exceptBindOk (a : α) (f : α → Except ε β) :
    (Except.ok a >>= f : Except ε β) = f a := rfl

@[simp] theorem exceptBindError (e : ε) (f : α → Except ε β) :
    (Except.error e >>= f : Except ε β) = .error e := rfl

@[simp] theorem exceptMapOk (f : α → β) (a : α) :
    (f <$> Except.ok a : Except ε β) = .ok (f a) := rfl

@[simp] theorem exceptMapError (f : α → β) (e : ε) :
    (f <$> Except.error e : Except ε β) = .error e := rfl

@[simp] theorem natToStringZero : toString (0 : Nat) = "0" := rfl

@[simp] theorem natToStringOne : toString (1 : Nat) = "1" := rfl

@[simp] theorem natToStringTwo : toString (2 : Nat) = "2" := rfl

end EvaluationLemmas

section PipelineLemmas

/-- Unfolding of `runPipeline` on the empty pipeline. -/
theorem runPipeline_nil {T : Type} (value : T) :
    runPipeline value [] = .ok (.Ok value) := rfl

/-- Unfolding of `runPipeline` when the next pipe succeeds: its output
becomes the accumulator for the rest of the pipeline. -/
theorem runPipeline_cons_ok {T : Type} {value v : T}
    {pipe : T → Result T String} {rest : List (T → Result T String)}
    (h : pipe value = .Ok v) :
    runPipeline value (pipe :: rest) = runPipeline v rest := by
  simp [runPipeline, h]

/-- Unfolding of `runPipeline` when the next pipe fails: the failing result
is returned immediately, whatever the rest of the pipeline is. -/
theorem runPipeline_cons_err {T : Type} {value : T} {e : String}
    {pipe : T → Result T String} {rest : List (T → Result T String)}
    (h : pipe value = .Err e) :
    runPipeline value (pipe :: rest) = .ok (.Err e) := by
  simp [runPipeline, h]

/-- The pipeline executor never lands in the exception layer: its only
partial accessor, `unwrap`, is guarded by the preceding `isErr` check. -/
theorem runPipeline_total {T : Type} (pipeline : List (T → Result T String))
    (value : T) : ∃ r, runPipeline value pipeline = .ok r := by
  induction pipeline generalizing value with
  | nil => exact ⟨.Ok value, rfl⟩
  | cons pipe rest ih =>
    cases h : pipe value with
    | Ok v => exact (runPipeline_cons_ok h) ▸ ih v
    | Err e => exact ⟨.Err e, runPipeline_cons_err h⟩

end PipelineLemmas

/-- C7. `runPipeline(value, pipeline)` is a fail-fast left fold starting from
`Ok(value)`: the empty pipeline yields `Ok(value)`; a pipe that succeeds
hands its output to the remaining pipes as the new accumulator; a pipe that
fails makes the whole run return that `Err` immediately, with the remaining
pipes never consulted (the right-hand side does not depend on them); and the
run is extensionally the left fold of the fail-fast step function over the
pipeline. -/
theorem C7_runPipeline_fold {T : Type} (value : T)
    (pipeline : List (T → Result T String)) :
    runPipeline value [] = .ok (.Ok value) ∧
    (∀ (pipe : T → Result T String) (rest : List (T → Result T String)) v,
      pipe value = .Ok v →
      runPipeline value (pipe :: rest) = runPipeline v rest) ∧
    (∀ (pipe : T → Result T String) (rest : List (T → Result T String)) e,
      pipe value = .Err e →
      runPipeline value (pipe :: rest) = .ok (.Err e)) ∧
    runPipeline value pipeline =
      .ok (pipeline.foldl
        (fun acc pipe =>
          match acc with
          | .Ok v => pipe v
          | .Err e => .Err e)
        (.Ok value)) := by
  refine ⟨rfl, fun pipe rest v h => runPipeline_cons_ok h,
    fun pipe rest e h => runPipeline_cons_err h, ?_⟩
  induction pipeline generalizing value with
  | nil => rfl
  | cons pipe rest ih =>
    simp only [List.foldl_cons]
    cases h : pipe value with
    | Ok v => rw [runPipeline_cons_ok h, ih]
    | Err e =>
      rw [runPipeline_cons_err h]
      clear ih h
      induction rest with
      | nil => rfl
      | cons p ps ihr => simp only [List.foldl_cons]; exact ihr

/-- Witness for C7: a concrete two-pipe run over the rationals, where the
first pipe transforms and the second fails, compared against the fold. -/
theorem C7_runPipeline_fold_witness :
    runPipeline (3 : ℚ) [] = .ok (.Ok 3) ∧
    runPipeline (3 : ℚ)
        [fun q => .Ok (q + 1), fun _ => .Err "stop"] =
      .ok ([(fun (q : ℚ) => Result.Ok (E := String) (q + 1)),
            (fun _ => .Err "stop")].foldl
        (fun acc pipe =>
          match acc with
          | .Ok v => pipe v
          | .Err e => .Err e)
        (.Ok 3)) := by
  refine ⟨(C7_runPipeline_fold (3 : ℚ) []).1, ?_⟩
  exact (C7_runPipeline_fold (3 : ℚ)
    [fun q => .Ok (q + 1), fun _ => .Err "stop"]).2.2.2

/-- C8. Coercion is keyed by the wrapped schema's `name` in the fixed COERCE
registry. When the name has no registry entry, the failure is already raised
while constructing the wrapper (`build` lands in the exception layer with the
fatal `Cannot coerce type` error, and a parse call on such an expression
would only ever reproduce that raise — it never produces a per-input
`ParseError` outcome). When the name is registered with coercion function
`f`, the wrapper's parse applies `f` to the raw input and delegates to the
wrapped schema's parse on the coerced value (when a registered cast raises,
the exception propagates out of the parse call). -/
theorem C8_coerce_registry (s : SchemaExpr) :
    (COERCE (name s) = none →
      (build s = .ok () →
        build (.coerce s) = .error ("Cannot coerce type " ++ name s)) ∧
      (∀ input, parse (.coerce s) input =
        .error ("Cannot coerce type " ++ name s))) ∧
    (∀ f, COERCE (name s) = some f →
      ∀ input, parse (.coerce s) input = f input >>= parse s) := by
  constructor
  · intro hnone
    constructor
    · intro hs
      simp [build, hs, hnone]
    · intro input
      simp [parse, hnone]
  · intro f hsome input
    simp only [parse, hsome]

/-- Witness for C8: the `literal` name has no registry entry, so building its
coercion wrapper raises the fatal error and a parse call reproduces the
raise; the `number` name is registered, and the wrapper's parse coerces then
delegates. -/
theorem C8_coerce_registry_witness :
    (COERCE (name (.literal (.bool true) "Expecting literal true")) = none ∧
      build (.coerce (.literal (.bool true) "Expecting literal true")) =
        .error "Cannot coerce type literal" ∧
      parse (.coerce (.literal (.bool true) "Expecting literal true")) .null =
        .error "Cannot coerce type literal") ∧
    (COERCE (name (.number [] "Expected number")) = some coerceNumberFn ∧
      parse (.coerce (.number [] "Expected number")) (.str "42") =
        coerceNumberFn (.str "42") >>= parse (.number [] "Expected number")) := by
  have hlit := C8_coerce_registry (.literal (.bool true) "Expecting literal true")
  have hnum := C8_coerce_registry (.number [] "Expected number")
  refine ⟨⟨rfl, ?_, ?_⟩, rfl, ?_⟩
  · exact (hlit.1 rfl).1 (by simp [build])
  · exact (hlit.1 rfl).2 .null
  · exact hnum.2 coerceNumberFn rfl (.str "42")

/-- C10. `pick` and `omit` never mutate the original object schema: the
source bodies only read the original shape and write a fresh one, so the
post-call state of the original shape (first component of the call-level
views) is the shape itself, and parsing against the original shape gives
identical outcomes after the call; each call constructs a new, independent
`object` schema whose shape holds exactly the original entries selected (or
rejected) by the key set, with the child schema references copied
unchanged. -/
theorem C10_pick_omit_frame (shape : List (String × SchemaExpr))
    (keys : List String) (message : String) :
    (pickCall shape keys message).1 = shape ∧
    (omitCall shape keys message).1 = shape ∧
    (∀ msg0 input,
      parse (.object (pickCall shape keys message).1 msg0) input =
        parse (.object shape msg0) input) ∧
    (∀ msg0 input,
      parse (.object (omitCall shape keys message).1 msg0) input =
        parse (.object shape msg0) input) ∧
    (pickCall shape keys message).2 =
      .object (shape.filter fun kc => keys.contains kc.1) message ∧
    (omitCall shape keys message).2 =
      .object (shape.filter fun kc => !keys.contains kc.1) message ∧
    (∀ k c, (k, c) ∈ (shape.filter fun kc => keys.contains kc.1) ↔
      (k, c) ∈ shape ∧ keys.contains k = true) ∧
    (∀ k c, (k, c) ∈ (shape.filter fun kc => !keys.contains kc.1) ↔
      (k, c) ∈ shape ∧ ¬ keys.contains k = true) := by
  refine ⟨rfl, rfl, fun _ _ => rfl, fun _ _ => rfl, rfl, rfl, ?_, ?_⟩
  · intro k c
    simp [List.mem_filter]
  · intro k c
    simp [List.mem_filter]

/-- Witness for C10: a concrete two-field shape picked and omitted on the
key list `["a"]`. -/
theorem C10_pick_omit_frame_witness :
    (pickCall [("a", .boolean "b1"), ("b", .boolean "b2")] ["a"] "m").1 =
      [("a", .boolean "b1"), ("b", .boolean "b2")] ∧
    (pickCall [("a", .boolean "b1"), ("b", .boolean "b2")] ["a"] "m").2 =
      .object [("a", .boolean "b1")] "m" ∧
    (omitCall [("a", .boolean "b1"), ("b", .boolean "b2")] ["a"] "m").2 =
      .object [("b", .boolean "b2")] "m" := by
  have h := C10_pick_omit_frame
    [("a", .boolean "b1"), ("b", .boolean "b2")] ["a"] "m"
  refine ⟨h.1, ?_, ?_⟩
  · rw [h.2.2.2.2.1]
    simp [List.filter]
  · rw [h.2.2.2.2.2.1]
    simp [List.filter]

section CastDichotomy

/-! The only exception the modelled casts can raise is the ToPrimitive
TypeError, established here for each cast and registry entry. -/

mutual

/-- The join underlying array/List stringification returns a string or
raises exactly the ToPrimitive TypeError. -/
theorem joinElems_ok_or (elems : List JSVal) :
    (∃ s, joinElems elems = .ok s) ∨
      joinElems elems = .error typeErrorMessage := by
  match elems with
  | [] =>
    refine .inl ?_
    simp only [joinElems]
    exact ⟨_, rfl⟩
  | [x] =>
    have h : joinElems [x] = joinElem x := by
      simp only [joinElems]
    rw [h]
    exact joinElem_ok_or x
  | x :: y :: rest =>
    rcases joinElem_ok_or x with ⟨s, hs⟩ | hs
    · rcases joinElems_ok_or (y :: rest) with ⟨t, ht⟩ | ht
      · refine .inl ⟨s ++ "," ++ t, ?_⟩
        simp only [joinElems, hs, ht]
        rfl
      · refine .inr ?_
        simp only [joinElems, hs, ht]
        rfl
    · refine .inr ?_
      simp only [joinElems, hs]
      rfl
termination_by (sizeOf elems, 1)

/-- A single joined element renders or raises exactly the ToPrimitive
TypeError. -/
theorem joinElem_ok_or (v : JSVal) :
    (∃ s, joinElem v = .ok s) ∨ joinElem v = .error typeErrorMessage := by
  cases v
  case null =>
    refine .inl ?_
    simp only [joinElem]
    exact ⟨_, rfl⟩
  case undefined =>
    refine .inl ?_
    simp only [joinElem]
    exact ⟨_, rfl⟩
  case objNull fields =>
    refine .inr ?_
    simp only [joinElem, jsToString]
  case arr elems =>
    have h : joinElem (.arr elems) = joinElems elems := by
      simp only [joinElem, jsToString]
    rw [h]
    exact joinElems_ok_or elems
  case listInst elems =>
    have h : joinElem (.listInst elems) = joinElems elems := by
      simp only [joinElem, jsToString]
    rw [h]
    exact joinElems_ok_or elems
  all_goals (refine .inl ?_; simp only [joinElem, jsToString]; exact ⟨_, rfl⟩)
termination_by (sizeOf v, 2)

end

/-- The String() cast returns a string or raises exactly the ToPrimitive
TypeError. -/
theorem jsToString_ok_or (v : JSVal) :
    (∃ s, jsToString v = .ok s) ∨ jsToString v = .error typeErrorMessage := by
  cases v
  case objNull fields =>
    refine .inr ?_
    simp only [jsToString]
  case arr elems =>
    have h : jsToString (.arr elems) = joinElems elems := by
      simp only [jsToString]
    rw [h]
    exact joinElems_ok_or elems
  case listInst elems =>
    have h : jsToString (.listInst elems) = joinElems elems := by
      simp only [jsToString]
    rw [h]
    exact joinElems_ok_or elems
  all_goals (refine .inl ?_; simp only [jsToString]; exact ⟨_, rfl⟩)
/-- The Number() cast returns a number or raises exactly the ToPrimitive
TypeError. -/
theorem jsToNumber_ok_or (v : JSVal) :
    (∃ n, jsToNumber v = .ok n) ∨ jsToNumber v = .error typeErrorMessage := by
  cases v
  case arr elems =>
    rcases jsToString_ok_or (.arr elems) with ⟨s, hs⟩ | hs
    · refine .inl ⟨stringToNumber s, ?_⟩
      simp only [jsToNumber, hs]
      rfl
    · refine .inr ?_
      simp only [jsToNumber, hs]
      rfl
  case listInst elems =>
    rcases jsToString_ok_or (.listInst elems) with ⟨s, hs⟩ | hs
    · refine .inl ⟨stringToNumber s, ?_⟩
      simp only [jsToNumber, hs]
      rfl
    · refine .inr ?_
      simp only [jsToNumber, hs]
      rfl
  case objNull fields =>
    refine .inr ?_
    simp only [jsToNumber, jsToString]
    rfl
  all_goals (refine .inl ?_; simp only [jsToNumber, jsToString]; exact ⟨_, rfl⟩)

/-- The number registry entry succeeds or raises exactly the ToPrimitive
TypeError. -/
theorem coerceNumberFn_ok_or (input : JSVal) :
    (∃ v, coerceNumberFn input = .ok v) ∨
      coerceNumberFn input = .error typeErrorMessage := by
  rcases jsToNumber_ok_or input with ⟨n, hn⟩ | hn
  · refine .inl ⟨.num n, ?_⟩
    simp only [coerceNumberFn, hn]
    rfl
  · refine .inr ?_
    simp only [coerceNumberFn, hn]
    rfl

/-- The string registry entry succeeds or raises exactly the ToPrimitive
TypeError. -/
theorem coerceStringFn_ok_or (input : JSVal) :
    (∃ v, coerceStringFn input = .ok v) ∨
      coerceStringFn input = .error typeErrorMessage := by
  rcases jsToString_ok_or input with ⟨s, hs⟩ | hs
  · refine .inl ⟨.str s, ?_⟩
    simp only [coerceStringFn, hs]
    rfl
  · refine .inr ?_
    simp only [coerceStringFn, hs]
    rfl

/-- Every COERCE entry is one of the five named registry functions. -/
theorem COERCE_cases (nm : String) :
    COERCE nm = none ∨
      ∃ f, COERCE nm = some f ∧
        (f = coerceNumberFn ∨ f = coerceStringFn ∨ f = coerceDateFn ∨
          f = coerceBooleanFn ∨ f = coerceListFn) := by
  rw [COERCE.eq_def]
  split
  · exact .inr ⟨coerceNumberFn, rfl, .inl rfl⟩
  · exact .inr ⟨coerceStringFn, rfl, .inr (.inl rfl)⟩
  · exact .inr ⟨coerceDateFn, rfl, .inr (.inr (.inl rfl))⟩
  · exact .inr ⟨coerceBooleanFn, rfl, .inr (.inr (.inr (.inl rfl)))⟩
  · exact .inr ⟨coerceListFn, rfl, .inr (.inr (.inr (.inr rfl)))⟩
  · exact .inl rfl

/-- Every registered coercion function succeeds or raises exactly the
ToPrimitive TypeError. -/
theorem COERCE_fn_ok_or {nm : String} {f : JSVal → Except String JSVal}
    (h : COERCE nm = some f) (input : JSVal) :
    (∃ v, f input = .ok v) ∨ f input = .error typeErrorMessage := by
  rcases COERCE_cases nm with hn | ⟨g, hg, hcases⟩
  · rw [h] at hn
    exact absurd hn (by simp)
  · rw [h] at hg
    injection hg with hg
    subst hg
    rcases hcases with rfl | rfl | rfl | rfl | rfl
    · exact coerceNumberFn_ok_or input
    · exact coerceStringFn_ok_or input
    · exact .inl ⟨_, rfl⟩
    · exact .inl ⟨_, rfl⟩
    · exact .inl ⟨_, rfl⟩

end CastDichotomy

mutual

/-- Outcome-or-TypeError dichotomy for the interpreter: every partial
`Result` accessor in every parse body is guarded, so on any successfully
constructed schema the only exception a parse call can raise is the
ToPrimitive TypeError escaping from the string/number coercion casts. -/
theorem parse_total (s : SchemaExpr) (input : JSVal)
    (hb : build s = .ok ()) :
    (∃ r, parse s input = .ok r) ∨ parse s input = .error typeErrorMessage := by
  cases s with
  | string ps msg =>
    cases input
    case str s0 =>
      obtain ⟨r, hr⟩ := runPipeline_total (ps.map evalStrPipe) s0
      refine .inl ?_
      simp only [parse, hr]
      exact ⟨_, rfl⟩
    all_goals (refine .inl ?_; simp only [parse]; exact ⟨_, rfl⟩)
  | number ps msg =>
    cases input
    case num n =>
      cases n
      case finite q =>
        obtain ⟨r, hr⟩ := runPipeline_total (ps.map evalNumPipe) q
        refine .inl ?_
        simp only [parse, hr]
        exact ⟨_, rfl⟩
      all_goals (refine .inl ?_; simp only [parse]; exact ⟨_, rfl⟩)
    all_goals (refine .inl ?_; simp only [parse]; exact ⟨_, rfl⟩)
  | boolean msg =>
    refine .inl ?_
    simp only [parse]
    exact ⟨_, rfl⟩
  | date msg =>
    cases input
    case date t =>
      cases t
      all_goals (refine .inl ?_; simp only [parse]; exact ⟨_, rfl⟩)
    all_goals (refine .inl ?_; simp only [parse]; exact ⟨_, rfl⟩)
  | literal c msg =>
    refine .inl ?_
    simp only [parse]
    exact ⟨_, rfl⟩
  | list schema msg =>
    rw [build] at hb
    cases input
    case arr elems =>
      rcases parseElems_total schema elems 0 hb with ⟨r, hr⟩ | hr
      · refine .inl ?_
        simp only [parse, hr]
        exact ⟨_, rfl⟩
      · refine .inr ?_
        simp only [parse, hr]
        rfl
    all_goals (refine .inl ?_; simp only [parse]; exact ⟨_, rfl⟩)
  | object shape msg =>
    rw [build] at hb
    cases input
    case obj fields =>
      rcases parseShape_total shape (.obj fields) hb with ⟨r, hr⟩ | hr
      · refine .inl ?_
        simp only [parse, isObject, hr]
        exact ⟨_, rfl⟩
      · refine .inr ?_
        simp only [parse, isObject, hr]
        rfl
    case objNull fields =>
      rcases parseShape_total shape (.objNull fields) hb with ⟨r, hr⟩ | hr
      · refine .inl ?_
        simp only [parse, isObject, hr]
        exact ⟨_, rfl⟩
      · refine .inr ?_
        simp only [parse, isObject, hr]
        rfl
    all_goals (refine .inl ?_; simp only [parse, isObject]; exact ⟨_, rfl⟩)
  | tuple schemas msg =>
    rw [build] at hb
    cases input
    case arr elems =>
      rcases parseTupleElems_total elems schemas 0 hb with ⟨r, hr⟩ | hr
      · refine .inl ?_
        simp only [parse, hr]
        exact ⟨_, rfl⟩
      · refine .inr ?_
        simp only [parse, hr]
        rfl
    all_goals (refine .inl ?_; simp only [parse]; exact ⟨_, rfl⟩)
  | union schemas msg =>
    rw [build] at hb
    rcases parseUnion_total schemas msg input hb with ⟨r, hr⟩ | hr
    · refine .inl ⟨r, ?_⟩
      simp only [parse]
      exact hr
    · refine .inr ?_
      simp only [parse]
      exact hr
  | optional schema =>
    rw [build] at hb
    cases hd : isDefined input with
    | false =>
      refine .inl ?_
      simp only [parse, hd]
      exact ⟨_, rfl⟩
    | true =>
      rcases parse_total schema input hb with ⟨r, hr⟩ | hr
      · refine .inl ?_
        simp only [parse, hd, hr]
        exact ⟨_, rfl⟩
      · refine .inr ?_
        simp only [parse, hd, hr]
        rfl
  | defaulted schema dflt =>
    rw [build] at hb
    cases hd : isDefined input with
    | false =>
      refine .inl ?_
      simp only [parse, hd]
      exact ⟨_, rfl⟩
    | true =>
      rcases parse_total schema input hb with ⟨r, hr⟩ | hr
      · refine .inl ⟨r, ?_⟩
        simp only [parse, hd]
        exact hr
      · refine .inr ?_
        simp only [parse, hd]
        exact hr
  | coerce schema =>
    rw [build] at hb
    cases hbs : build schema with
    | error e => rw [hbs] at hb; simp at hb
    | ok u =>
      cases u
      rw [hbs] at hb
      cases hcf : COERCE (name schema) with
      | none => rw [hcf] at hb; simp at hb
      | some f =>
        rcases COERCE_fn_ok_or hcf input with ⟨c, hc⟩ | hc
        · rcases parse_total schema c hbs with ⟨r, hr⟩ | hr
          · refine .inl ?_
            simp only [parse, hcf, hc, exceptBindOk, hr]
            exact ⟨_, rfl⟩
          · refine .inr ?_
            simp only [parse, hcf, hc, exceptBindOk, hr]
        · refine .inr ?_
          simp only [parse, hcf, hc]
          rfl
termination_by (sizeOf s, 0)

/-- Outcome-or-TypeError dichotomy for the list element loop. -/
theorem parseElems_total (schema : SchemaExpr) (elems : List JSVal) (i : Nat)
    (hb : build schema = .ok ()) :
    (∃ r, parseElems schema elems i = .ok r) ∨
      parseElems schema elems i = .error typeErrorMessage := by
  match elems with
  | [] =>
    refine .inl ?_
    simp only [parseElems]
    exact ⟨_, rfl⟩
  | x :: rest =>
    rcases parse_total schema x hb with ⟨r, hr⟩ | hr
    · cases r with
      | Err e =>
        refine .inl ?_
        simp only [parseElems, hr]
        exact ⟨_, rfl⟩
      | Ok v =>
        rcases parseElems_total schema rest (i + 1) hb with ⟨r2, hr2⟩ | hr2
        · refine .inl ?_
          simp only [parseElems, hr, hr2]
          exact ⟨_, rfl⟩
        · refine .inr ?_
          simp only [parseElems, hr, hr2]
          rfl
    · refine .inr ?_
      simp only [parseElems, hr]
      rfl
termination_by (sizeOf schema, elems.length + 1)

/-- Outcome-or-TypeError dichotomy for the object field loop. -/
theorem parseShape_total (shape : List (String × SchemaExpr)) (input : JSVal)
    (hb : buildShape shape = .ok ()) :
    (∃ r, parseShape shape input = .ok r) ∨
      parseShape shape input = .error typeErrorMessage := by
  match shape with
  | [] =>
    refine .inl ?_
    simp only [parseShape]
    exact ⟨_, rfl⟩
  | (key, child) :: rest =>
    rw [buildShape] at hb
    cases hbc : build child with
    | error e => rw [hbc] at hb; simp at hb
    | ok u =>
      cases u
      rw [hbc] at hb
      simp at hb
      rcases parse_total child (getProp input key) hbc with ⟨r, hr⟩ | hr
      · cases r with
        | Err e =>
          refine .inl ?_
          simp only [parseShape, hr]
          exact ⟨_, rfl⟩
        | Ok v =>
          rcases parseShape_total rest input hb with ⟨r2, hr2⟩ | hr2
          · refine .inl ?_
            simp only [parseShape, hr, hr2]
            exact ⟨_, rfl⟩
          · refine .inr ?_
            simp only [parseShape, hr, hr2]
            rfl
      · refine .inr ?_
        simp only [parseShape, hr]
        rfl
termination_by (sizeOf shape, 0)

/-- Outcome-or-TypeError dichotomy for the tuple position loop. -/
theorem parseTupleElems_total (elems : List JSVal)
    (schemas : List SchemaExpr) (i : Nat)
    (hb : buildAll schemas = .ok ()) :
    (∃ r, parseTupleElems elems schemas i = .ok r) ∨
      parseTupleElems elems schemas i = .error typeErrorMessage := by
  match schemas with
  | [] =>
    refine .inl ?_
    simp only [parseTupleElems]
    exact ⟨_, rfl⟩
  | schema :: rest =>
    rw [buildAll] at hb
    cases hbc : build schema with
    | error e => rw [hbc] at hb; simp at hb
    | ok u =>
      cases u
      rw [hbc] at hb
      simp at hb
      rcases parse_total schema (elems.getD i .undefined) hbc with ⟨r, hr⟩ | hr
      · cases r with
        | Err e =>
          refine .inl ?_
          simp only [parseTupleElems, hr]
          exact ⟨_, rfl⟩
        | Ok v =>
          rcases parseTupleElems_total elems rest (i + 1) hb with ⟨r2, hr2⟩ | hr2
          · refine .inl ?_
            simp only [parseTupleElems, hr, hr2]
            exact ⟨_, rfl⟩
          · refine .inr ?_
            simp only [parseTupleElems, hr, hr2]
            rfl
      · refine .inr ?_
        simp only [parseTupleElems, hr]
        rfl
termination_by (sizeOf schemas, 0)

/-- Outcome-or-TypeError dichotomy for the union member loop. -/
theorem parseUnion_total (schemas : List SchemaExpr) (message : String)
    (input : JSVal) (hb : buildAll schemas = .ok ()) :
    (∃ r, parseUnion schemas message input = .ok r) ∨
      parseUnion schemas message input = .error typeErrorMessage := by
  match schemas with
  | [] =>
    refine .inl ?_
    simp only [parseUnion]
    exact ⟨_, rfl⟩
  | schema :: rest =>
    rw [buildAll] at hb
    cases hbc : build schema with
    | error e => rw [hbc] at hb; simp at hb
    | ok u =>
      cases u
      rw [hbc] at hb
      simp at hb
      rcases parse_total schema input hbc with ⟨r, hr⟩ | hr
      · cases r with
        | Ok v =>
          refine .inl ?_
          simp only [parseUnion, hr]
          exact ⟨_, rfl⟩
        | Err e =>
          rcases parseUnion_total rest message input hb with ⟨r2, hr2⟩ | hr2
          · refine .inl ⟨r2, ?_⟩
            simp only [parseUnion, hr, hr2]
            rfl
          · refine .inr ?_
            simp only [parseUnion, hr, hr2]
            rfl
      · refine .inr ?_
        simp only [parseUnion, hr]
        rfl
termination_by (sizeOf schemas, 0)

end

/-- C1. The claim that parse never raises is broken by the coercion layer:
the string and number registry entries hand the raw input to
`String()`/`Number()`, whose ToPrimitive step raises a TypeError on a
prototype-less plain record — a kind of value the library itself produces,
since object validation assembles its output with `Object.create(null)`.
The first conjunct shows the coerce-wrapped string schema constructing
successfully; the next two show both coerce-wrapped schemas raising during
a parse call on such a record; the last shows the object validator
producing exactly such a record. (By `parse_total`, this ToPrimitive
TypeError is the only exception any parse call on a built schema can
raise.) -/
theorem C1_coercion_throws :
    build (.coerce (.string [] "Expected string")) = .ok () ∧
    parse (.coerce (.string [] "Expected string")) (.objNull []) =
      .error typeErrorMessage ∧
    parse (.coerce (.number [] "Expected number")) (.objNull []) =
      .error typeErrorMessage ∧
    parse (.object [] "Expected object") (.obj []) =
      .ok (.Ok (.objNull [])) := by
  refine ⟨?_, ?_, ?_, ?_⟩
  · simp [build, name, COERCE]
  · simp [parse, name, COERCE, coerceStringFn, jsToString]
  · simp [parse, name, COERCE, coerceNumberFn, jsToNumber, jsToString]
  · simp [parse, parseShape, isObject]

section StepLemmas

/-- Field loop, failing head: the field name is prepended to the child's
error path and the loop stops, regardless of the remaining shape. -/
theorem parseShape_cons_err {input : JSVal} {key : String} {child : SchemaExpr}
    {rest : List (String × SchemaExpr)} {e : ParseError}
    (h : parse child (getProp input key) = .ok (.Err e)) :
    parseShape ((key, child) :: rest) input =
      .ok (.Err { path := key :: e.path, message := e.message, input := e.input }) := by
  simp only [parseShape, h]
  rfl

/-- Field loop, successful head: the validated value is recorded under its
key and the loop continues with the rest of the shape. -/
theorem parseShape_cons_ok {input v : JSVal} {key : String} {child : SchemaExpr}
    {rest : List (String × SchemaExpr)}
    (h : parse child (getProp input key) = .ok (.Ok v)) :
    parseShape ((key, child) :: rest) input =
      parseShape rest input >>= fun r =>
        .ok (r.map fun fields => (key, v) :: fields) := by
  simp only [parseShape, h]
  rfl

/-- Element loop, failing head: the stringified index is prepended and the
loop stops, regardless of the remaining elements. -/
theorem parseElems_cons_err {schema : SchemaExpr} {x : JSVal}
    {rest : List JSVal} {i : Nat} {e : ParseError}
    (h : parse schema x = .ok (.Err e)) :
    parseElems schema (x :: rest) i =
      .ok (.Err { path := toString i :: e.path, message := e.message, input := e.input }) := by
  simp only [parseElems, h]
  rfl

/-- Element loop, successful head: the validated element is consed onto the
validation of the remaining elements at the next index. -/
theorem parseElems_cons_ok {schema : SchemaExpr} {x v : JSVal}
    {rest : List JSVal} {i : Nat}
    (h : parse schema x = .ok (.Ok v)) :
    parseElems schema (x :: rest) i =
      parseElems schema rest (i + 1) >>= fun r =>
        .ok (r.map fun vs => v :: vs) := by
  simp only [parseElems, h]
  rfl

/-- Tuple loop, failing head position. -/
theorem parseTupleElems_cons_err {elems : List JSVal} {schema : SchemaExpr}
    {rest : List SchemaExpr} {i : Nat} {e : ParseError}
    (h : parse schema (elems.getD i .undefined) = .ok (.Err e)) :
    parseTupleElems elems (schema :: rest) i =
      .ok (.Err { path := toString i :: e.path, message := e.message, input := e.input }) := by
  simp only [parseTupleElems, h]
  rfl

/-- Tuple loop, successful head position. -/
theorem parseTupleElems_cons_ok {elems : List JSVal} {schema : SchemaExpr}
    {rest : List SchemaExpr} {i : Nat} {v : JSVal}
    (h : parse schema (elems.getD i .undefined) = .ok (.Ok v)) :
    parseTupleElems elems (schema :: rest) i =
      parseTupleElems elems rest (i + 1) >>= fun r =>
        .ok (r.map fun vs => v :: vs) := by
  simp only [parseTupleElems, h]
  rfl

end StepLemmas

/-- C3. Object validation of a plain-object input walks the shape keys in
their declared order, reading each key off the input (an absent key reads as
`undefined`); on the first child failure the field name is prepended to the
child's error path and the error is returned with the remaining fields never
consulted (the failing result does not depend on the rest of the shape); on
a successful head field the loop records the value and continues; and on the
spec's example the missing key `b` is validated as `undefined` and fails the
number check with path `["b"]`. -/
theorem C3_object_field_order :
    (∀ (fields : List (String × JSVal)) (key : String),
      fields.lookup key = none → getProp (.obj fields) key = .undefined) ∧
    (∀ (fields : List (String × JSVal)) (msg key : String) (child : SchemaExpr)
        (rest : List (String × SchemaExpr)) (e : ParseError),
      parse child (getProp (.obj fields) key) = .ok (.Err e) →
      parse (.object ((key, child) :: rest) msg) (.obj fields) =
        .ok (.Err { path := key :: e.path, message := e.message, input := e.input })) ∧
    (∀ (fields : List (String × JSVal)) (msg key : String) (child : SchemaExpr)
        (rest : List (String × SchemaExpr)) (v : JSVal),
      parse child (getProp (.obj fields) key) = .ok (.Ok v) →
      parse (.object ((key, child) :: rest) msg) (.obj fields) =
        parseShape rest (.obj fields) >>= fun r =>
          .ok ((r.map fun fs => (key, v) :: fs).map JSVal.objNull)) ∧
    parse (.object [("a", .string [] "Expected string"),
        ("b", .number [] "Expected number")] "Expected object")
        (.obj [("a", .str "x")]) =
      .ok (.Err { path := ["b"], message := "Expected number", input := .undefined }) := by
  refine ⟨?_, ?_, ?_, ?_⟩
  · intro fields key h
    simp [getProp, h]
  · intro fields msg key child rest e h
    simp only [parse, isObject, parseShape_cons_err h]
    rfl
  · intro fields msg key child rest v h
    simp only [parse, isObject, parseShape_cons_ok h]
    cases hps : parseShape rest (.obj fields) with
    | error err => rfl
    | ok r => cases r <;> rfl
  · simp [parse, parseShape, getProp, isObject, createErr, runPipeline, List.lookup]

/-- Witness for C3: the failing-head and successful-head characterizations
applied to the spec's example schema and input. -/
theorem C3_object_field_order_witness :
    getProp (.obj [("a", .str "x")]) "b" = .undefined ∧
    parse (.object [("b", .number [] "Expected number")] "Expected object")
        (.obj [("a", .str "x")]) =
      .ok (.Err { path := ["b"], message := "Expected number", input := .undefined }) := by
  have h := C3_object_field_order
  refine ⟨h.1 [("a", .str "x")] "b" (by simp [List.lookup]), ?_⟩
  have h2 := h.2.1 [("a", .str "x")] "Expected object" "b"
    (.number [] "Expected number") []
    { path := [], message := "Expected number", input := .undefined }
  simp [getProp, List.lookup, parse, createErr] at h2 ⊢
  exact h2

/-- Full success of the element loop: when every element validates, the loop
returns the validated values in input order, for any starting index. -/
theorem parseElems_ok_of_forall₂ {schema : SchemaExpr} {elems vs : List JSVal}
    (h : List.Forall₂ (fun x v => parse schema x = .ok (.Ok v)) elems vs) :
    ∀ i, parseElems schema elems i = .ok (.Ok vs) := by
  induction h with
  | nil => intro i; simp [parseElems]
  | cons hx hrest ih =>
    intro i
    rw [parseElems_cons_ok hx, ih (i + 1)]
    rfl

/-- C4. List validation of an array input checks elements in index order and
fails fast: the first failing element's error is returned with its
stringified index prepended and the remaining elements never consulted (the
failing result does not depend on them); a successful element is consed onto
the validation of the rest at the next index; when every element validates,
the outcome is the ordered-sequence container holding the validated elements
in input order; and the spec's nested example fails with the root-to-leaf
path `["1", "id"]`. -/
theorem C4_list_fail_fast_order :
    (∀ (schema : SchemaExpr) (x : JSVal) (rest : List JSVal) (i : Nat)
        (e : ParseError),
      parse schema x = .ok (.Err e) →
      parseElems schema (x :: rest) i =
        .ok (.Err { path := toString i :: e.path, message := e.message, input := e.input })) ∧
    (∀ (schema : SchemaExpr) (x v : JSVal) (rest : List JSVal) (i : Nat),
      parse schema x = .ok (.Ok v) →
      parseElems schema (x :: rest) i =
        parseElems schema rest (i + 1) >>= fun r =>
          .ok (r.map fun vs => v :: vs)) ∧
    (∀ (schema : SchemaExpr) (msg : String) (elems vs : List JSVal),
      List.Forall₂ (fun x v => parse schema x = .ok (.Ok v)) elems vs →
      parse (.list schema msg) (.arr elems) = .ok (.Ok (.listInst vs))) ∧
    parse (.list (.object [("id", .number [] "Expected number")]
        "Expected object") "Expected array")
        (.arr [.obj [("id", .num (.finite 1))], .obj [("id", .str "x")]]) =
      .ok (.Err { path := ["1", "id"], message := "Expected number", input := .str "x" }) := by
  refine ⟨fun schema x rest i e h => parseElems_cons_err h,
    fun schema x v rest i h => parseElems_cons_ok h, ?_, ?_⟩
  · intro schema msg elems vs h
    simp only [parse, parseElems_ok_of_forall₂ h 0]
    rfl
  · simp [parse, parseElems, parseShape, getProp, isObject, createErr,
      runPipeline, List.lookup]

/-- Witness for C4: a fully successful two-element list of numbers, produced
by the full-success clause of the theorem at a concrete `Forall₂`. -/
theorem C4_list_fail_fast_order_witness :
    parse (.list (.number [] "Expected number") "Expected array")
        (.arr [.num (.finite 1), .num (.finite 2)]) =
      .ok (.Ok (.listInst [.num (.finite 1), .num (.finite 2)])) := by
  have h1 : parse (.number [] "Expected number") (.num (.finite 1)) =
      .ok (.Ok (.num (.finite 1))) := by
    simp [parse, runPipeline]
  have h2 : parse (.number [] "Expected number") (.num (.finite 2)) =
      .ok (.Ok (.num (.finite 2))) := by
    simp [parse, runPipeline]
  exact C4_list_fail_fast_order.2.2.1 _ "Expected array" _ _
    (.cons h1 (.cons h2 .nil))

/-- When every member of a union fails, the loop falls through to the single
synthesized generic error, discarding the member errors. -/
theorem parseUnion_all_fail {input : JSVal} :
    ∀ (schemas : List SchemaExpr) (message : String),
      (∀ s ∈ schemas, ∃ e, parse s input = .ok (.Err e)) →
      parseUnion schemas message input = .ok (createErr message input) := by
  intro schemas
  induction schemas with
  | nil => intro message h; simp [parseUnion]
  | cons s rest ih =>
    intro message h
    obtain ⟨e, he⟩ := h s (by simp)
    have hstep : parseUnion (s :: rest) message input =
        parseUnion rest message input := by
      simp only [parseUnion, he]
      rfl
    rw [hstep]
    exact ih message fun s' hs' => h s' (List.mem_cons_of_mem _ hs')

/-- C5. Union tries its members in declared order: a successful member's
result is returned verbatim and later members are never consulted (the
result does not depend on them); a failing member hands over to the
remaining members with its error discarded; and when every member fails the
outcome is the single generic error at path `[]` carrying the default
message built from the member schema names, independent of the individual
branch errors. -/
theorem C5_union_first_match :
    (∀ (schema : SchemaExpr) (rest : List SchemaExpr) (msg : String)
        (input v : JSVal),
      parse schema input = .ok (.Ok v) →
      parse (.union (schema :: rest) msg) input = .ok (.Ok v)) ∧
    (∀ (schema : SchemaExpr) (rest : List SchemaExpr) (msg : String)
        (input : JSVal) (e : ParseError),
      parse schema input = .ok (.Err e) →
      parse (.union (schema :: rest) msg) input = parseUnion rest msg input) ∧
    (∀ (schemas : List SchemaExpr) (input : JSVal),
      (∀ s ∈ schemas, ∃ e, parse s input = .ok (.Err e)) →
      parse (.union schemas (unionDefaultMessage schemas)) input =
        .ok (.Err { path := [], message := unionDefaultMessage schemas, input := input })) := by
  refine ⟨?_, ?_, ?_⟩
  · intro schema rest msg input v h
    simp only [parse, parseUnion, h]
    rfl
  · intro schema rest msg input e h
    simp only [parse, parseUnion, h]
    rfl
  · intro schemas input h
    simp only [parse, parseUnion_all_fail schemas (unionDefaultMessage schemas) h]
    rfl

/-- Witness for C5: the spec's example union of string and number matches
`5` on its second member, and fails on `true` with the generic default
message naming both members. -/
theorem C5_union_first_match_witness :
    parse (.union [.string [] "Expected string", .number [] "Expected number"]
        (unionDefaultMessage
          [.string [] "Expected string", .number [] "Expected number"]))
        (.num (.finite 5)) = .ok (.Ok (.num (.finite 5))) ∧
    parse (.union [.string [] "Expected string", .number [] "Expected number"]
        (unionDefaultMessage
          [.string [] "Expected string", .number [] "Expected number"]))
        (.bool true) =
      .ok (.Err { path := [], message := "Expecting one of string, number", input := .bool true }) := by
  have hmsg : unionDefaultMessage
      [.string [] "Expected string", .number [] "Expected number"] =
      "Expecting one of string, number" := rfl
  constructor
  · have hs : parse (.string [] "Expected string") (.num (.finite 5)) =
        .ok (.Err { path := [], message := "Expected string", input := .num (.finite 5) }) := by
      simp [parse, createErr]
    rw [C5_union_first_match.2.1 _ _ _ _ _ hs]
    simp [parseUnion, parse, runPipeline]
  · have hfail : ∀ s ∈ [SchemaExpr.string [] "Expected string",
        SchemaExpr.number [] "Expected number"],
        ∃ e, parse s (.bool true) = .ok (.Err e) := by
      intro s hs
      fin_cases hs
      · exact ⟨{ path := [], message := "Expected string", input := .bool true },
          by simp [parse, createErr]⟩
      · exact ⟨{ path := [], message := "Expected number", input := .bool true },
          by simp [parse, createErr]⟩
    have := C5_union_first_match.2.2
      [.string [] "Expected string", .number [] "Expected number"]
      (.bool true) hfail
    rw [this, hmsg]

/-- The tuple loop only reads positions `i` through `i + schemas.length - 1`
of the input array: arrays that agree there validate identically. -/
theorem parseTupleElems_congr (schemas : List SchemaExpr) :
    ∀ (elems₁ elems₂ : List JSVal) (i : Nat),
      (∀ j, i ≤ j → j < i + schemas.length →
        elems₁.getD j .undefined = elems₂.getD j .undefined) →
      parseTupleElems elems₁ schemas i = parseTupleElems elems₂ schemas i := by
  induction schemas with
  | nil => intro e1 e2 i h; simp [parseTupleElems]
  | cons s rest ih =>
    intro e1 e2 i h
    have h0 : e1.getD i .undefined = e2.getD i .undefined :=
      h i le_rfl (by simp only [List.length_cons]; omega)
    simp only [parseTupleElems, h0]
    rw [ih e1 e2 (i + 1) fun j hj1 hj2 => h j (by omega)
      (by simp only [List.length_cons]; omega)]

/-- Reading a taken prefix at an index inside the prefix is reading the
original list. -/
theorem getD_take_eq (l : List JSVal) :
    ∀ (n j : Nat), j < n → (l.take n).getD j .undefined = l.getD j .undefined := by
  induction l with
  | nil => intro n j h; simp
  | cons x xs ih =>
    intro n j h
    cases n with
    | zero => omega
    | succ n =>
      cases j with
      | zero => simp
      | succ j => simpa using ih n j (by omega)

/-- A successful tuple loop returns exactly one validated value per member
schema. -/
theorem parseTupleElems_ok_length {schemas : List SchemaExpr} :
    ∀ {elems : List JSVal} {i : Nat} {vs : List JSVal},
      parseTupleElems elems schemas i = .ok (.Ok vs) →
      vs.length = schemas.length := by
  induction schemas with
  | nil =>
    intro elems i vs h
    simp [parseTupleElems] at h
    simp [← h]
  | cons s rest ih =>
    intro elems i vs h
    cases hp : parse s (elems.getD i .undefined) with
    | error e => simp only [parseTupleElems, hp] at h; simp at h
    | ok r =>
      cases r with
      | Err e =>
        rw [parseTupleElems_cons_err hp] at h
        simp at h
      | Ok v =>
        rw [parseTupleElems_cons_ok hp] at h
        cases hrec : parseTupleElems elems rest (i + 1) with
        | error e => rw [hrec] at h; simp at h
        | ok r2 =>
          rw [hrec] at h
          cases r2 with
          | Err e => simp at h
          | Ok vs' =>
            simp at h
            simp [← h, ih hrec]

/-- C6. Tuple validation is bounded to the declared arity: each position `i`
below the member count is validated against its own schema with the value
`input[i]` (reading `undefined` when the input is shorter), failing fast
with the stringified index prepended; positions at or beyond the member
count are never examined, so the outcome on any array equals the outcome on
its prefix of the declared length; and a successful outcome is an array of
exactly the declared length. -/
theorem C6_tuple_fixed_arity :
    (∀ (elems : List JSVal) (schema : SchemaExpr) (rest : List SchemaExpr)
        (i : Nat) (e : ParseError),
      parse schema (elems.getD i .undefined) = .ok (.Err e) →
      parseTupleElems elems (schema :: rest) i =
        .ok (.Err { path := toString i :: e.path, message := e.message, input := e.input })) ∧
    (∀ (elems : List JSVal) (schema : SchemaExpr) (rest : List SchemaExpr)
        (i : Nat) (v : JSVal),
      parse schema (elems.getD i .undefined) = .ok (.Ok v) →
      parseTupleElems elems (schema :: rest) i =
        parseTupleElems elems rest (i + 1) >>= fun r =>
          .ok (r.map fun vs => v :: vs)) ∧
    (∀ (schemas : List SchemaExpr) (msg : String) (elems : List JSVal),
      parse (.tuple schemas msg) (.arr elems) =
        parse (.tuple schemas msg) (.arr (elems.take schemas.length))) ∧
    (∀ (schemas : List SchemaExpr) (msg : String) (elems vs : List JSVal),
      parse (.tuple schemas msg) (.arr elems) = .ok (.Ok (.arr vs)) →
      vs.length = schemas.length) := by
  refine ⟨fun elems schema rest i e h => parseTupleElems_cons_err h,
    fun elems schema rest i v h => parseTupleElems_cons_ok h, ?_, ?_⟩
  · intro schemas msg elems
    simp only [parse]
    rw [parseTupleElems_congr schemas elems (elems.take schemas.length) 0
      fun j hj1 hj2 => (getD_take_eq elems schemas.length j (by omega)).symm]
  · intro schemas msg elems vs h
    simp only [parse] at h
    cases hr : parseTupleElems elems schemas 0 with
    | error e => rw [hr] at h; simp at h
    | ok r =>
      rw [hr] at h
      cases r with
      | Err e => simp at h
      | Ok vs' =>
        simp at h
        cases h
        exact parseTupleElems_ok_length hr

/-- Witness for C6: a one-member tuple over a longer input equals its run on
the one-element prefix, succeeds with a length-one array, and ignores the
trailing elements. -/
theorem C6_tuple_fixed_arity_witness :
    parse (.tuple [.number [] "Expected number"] "Expecting tuple of [number]")
        (.arr [.num (.finite 1), .bool true, .str "x"]) =
      parse (.tuple [.number [] "Expected number"] "Expecting tuple of [number]")
        (.arr [.num (.finite 1)]) ∧
    ([JSVal.num (.finite 1)] : List JSVal).length =
      ([SchemaExpr.number [] "Expected number"] : List SchemaExpr).length := by
  constructor
  · exact C6_tuple_fixed_arity.2.2.1 [.number [] "Expected number"]
      "Expecting tuple of [number]" [.num (.finite 1), .bool true, .str "x"]
  · exact C6_tuple_fixed_arity.2.2.2 [.number [] "Expected number"]
      "Expecting tuple of [number]" [.num (.finite 1), .bool true, .str "x"]
      [.num (.finite 1)]
      (by simp [parse, parseTupleElems, runPipeline])

/-- Field loop congruence: only the shape's keys are read off the input. -/
theorem parseShape_congr (shape : List (String × SchemaExpr)) :
    ∀ (input₁ input₂ : JSVal),
      (∀ k, k ∈ shape.map Prod.fst → getProp input₁ k = getProp input₂ k) →
      parseShape shape input₁ = parseShape shape input₂ := by
  induction shape with
  | nil => intro i1 i2 h; simp [parseShape]
  | cons kc rest ih =>
    obtain ⟨key, child⟩ := kc
    intro i1 i2 h
    have h0 : getProp i1 key = getProp i2 key := h key (by simp)
    simp only [parseShape, h0]
    rw [ih i1 i2 fun k hk => h k (by simp [hk])]

/-- A successful field loop returns fields whose keys are exactly the shape
keys in declared order. -/
theorem parseShape_ok_keys {shape : List (String × SchemaExpr)} :
    ∀ {input : JSVal} {fs : List (String × JSVal)},
      parseShape shape input = .ok (.Ok fs) →
      fs.map Prod.fst = shape.map Prod.fst := by
  induction shape with
  | nil =>
    intro input fs h
    simp [parseShape] at h
    simp [← h]
  | cons kc rest ih =>
    obtain ⟨key, child⟩ := kc
    intro input fs h
    cases hp : parse child (getProp input key) with
    | error e => simp only [parseShape, hp] at h; simp at h
    | ok r =>
      cases r with
      | Err e =>
        rw [parseShape_cons_err hp] at h
        simp at h
      | Ok v =>
        rw [parseShape_cons_ok hp] at h
        cases hrec : parseShape rest input with
        | error e => rw [hrec] at h; simp at h
        | ok r2 =>
          rw [hrec] at h
          cases r2 with
          | Err e => simp at h
          | Ok fs' =>
            simp at h
            simp [← h, ih hrec]

/-- C9. Properties of a plain-object input whose keys are not in the shape
are invisible to object validation: two inputs that agree on the shape's
keys validate identically (so extra properties neither cause failure nor are
examined), and a successful outcome is a plain object carrying exactly the
shape's keys in declared order and nothing else. -/
theorem C9_object_extra_keys :
    (∀ (shape : List (String × SchemaExpr)) (msg : String)
        (fields₁ fields₂ : List (String × JSVal)),
      (∀ k, k ∈ shape.map Prod.fst →
        getProp (.obj fields₁) k = getProp (.obj fields₂) k) →
      parse (.object shape msg) (.obj fields₁) =
        parse (.object shape msg) (.obj fields₂)) ∧
    (∀ (shape : List (String × SchemaExpr)) (msg : String)
        (fields : List (String × JSVal)) (out : JSVal),
      parse (.object shape msg) (.obj fields) = .ok (.Ok out) →
      ∃ fs, out = .objNull fs ∧ fs.map Prod.fst = shape.map Prod.fst) := by
  constructor
  · intro shape msg fields₁ fields₂ h
    have hps := parseShape_congr shape (.obj fields₁) (.obj fields₂) h
    simp [parse, isObject, hps]
  · intro shape msg fields out h
    simp only [parse, isObject] at h
    cases hr : parseShape shape (.obj fields) with
    | error e => rw [hr] at h; simp at h
    | ok r =>
      rw [hr] at h
      cases r with
      | Err e => simp at h
      | Ok fs =>
        simp at h
        exact ⟨fs, h.symm, parseShape_ok_keys hr⟩

/-- Witness for C9: adding an extra property to the input of a one-field
boolean schema changes nothing, and the successful output carries exactly
the shape key. -/
theorem C9_object_extra_keys_witness :
    parse (.object [("a", .boolean "Expected boolean")] "Expected object")
        (.obj [("a", .bool true), ("extra", .num .nan)]) =
      parse (.object [("a", .boolean "Expected boolean")] "Expected object")
        (.obj [("a", .bool true)]) ∧
    ∃ fs, (JSVal.objNull [("a", JSVal.bool true)]) = .objNull fs ∧
      fs.map Prod.fst =
        ([("a", SchemaExpr.boolean "Expected boolean")]).map Prod.fst := by
  constructor
  · exact C9_object_extra_keys.1 [("a", .boolean "Expected boolean")]
      "Expected object" [("a", .bool true), ("extra", .num .nan)]
      [("a", .bool true)]
      (by intro k hk; simp at hk; subst hk; simp [getProp, List.lookup])
  · exact C9_object_extra_keys.2 [("a", .boolean "Expected boolean")]
      "Expected object" [("a", .bool true)] (.objNull [("a", .bool true)])
      (by simp [parse, parseShape, getProp, isObject, isBoolean, createErr, List.lookup])

/-- Unfolding of object parse on a base-prototype plain-object input; the
output record is built prototype-less. -/
theorem parse_object_obj (shape : List (String × SchemaExpr)) (msg : String)
    (fields : List (String × JSVal)) :
    parse (.object shape msg) (.obj fields) =
      parseShape shape (.obj fields) >>= fun r => .ok (r.map JSVal.objNull) := by
  simp [parse, isObject]

/-- Unfolding of object parse on a prototype-less plain-object input. -/
theorem parse_object_objNull (shape : List (String × SchemaExpr)) (msg : String)
    (fields : List (String × JSVal)) :
    parse (.object shape msg) (.objNull fields) =
      parseShape shape (.objNull fields) >>= fun r => .ok (r.map JSVal.objNull) := by
  simp [parse, isObject]

/-- Unfolding of tuple parse on an array input. -/
theorem parse_tuple_arr (schemas : List SchemaExpr) (msg : String)
    (elems : List JSVal) :
    parse (.tuple schemas msg) (.arr elems) =
      parseTupleElems elems schemas 0 >>= fun r => .ok (r.map JSVal.arr) := by
  simp [parse]

/-- A pipeline of evaluated pipes that re-validates its own successful
output: running it again on a value it produced succeeds with the value
unchanged. This is the semantic form of "the pipeline steps are
idempotent". -/
def PipelineIdem {T : Type} (pipeline : List (T → Result T String)) : Prop :=
  ∀ x y, runPipeline x pipeline = .ok (.Ok y) →
    runPipeline y pipeline = .ok (.Ok y)

/-- The empty pipeline is idempotent. -/
theorem PipelineIdem_nil {T : Type} :
    PipelineIdem ([] : List (T → Result T String)) := by
  intro x y h
  simp [runPipeline] at h
  simp [runPipeline, h]

/-- The schema class on which parse is idempotent: primitives with
idempotent pipelines, literals, objects with distinct field names and
idempotent children, tuples of idempotent members, and defaulted wrappers
whose (defined) default value re-validates to itself. `optional` and `list`
are excluded: their `Ok` outputs are `Option`/`List` container class
instances which the same schema then rejects. `union` and `coerce` are
excluded: an earlier union member may succeed on (and transform) a later
member's output. -/
inductive IdemSchema : SchemaExpr → Prop where
  | string (ps : List StrPipe) (msg : String) :
      PipelineIdem (ps.map evalStrPipe) → IdemSchema (.string ps msg)
  | number (ps : List NumPipe) (msg : String) :
      PipelineIdem (ps.map evalNumPipe) → IdemSchema (.number ps msg)
  | boolean (msg : String) : IdemSchema (.boolean msg)
  | date (msg : String) : IdemSchema (.date msg)
  | literal (c : LitVal) (msg : String) : IdemSchema (.literal c msg)
  | object (shape : List (String × SchemaExpr)) (msg : String) :
      (∀ kc ∈ shape, IdemSchema kc.2) → (shape.map Prod.fst).Nodup →
      IdemSchema (.object shape msg)
  | tuple (ss : List SchemaExpr) (msg : String) :
      (∀ s ∈ ss, IdemSchema s) → IdemSchema (.tuple ss msg)
  | defaulted (s : SchemaExpr) (dflt : JSVal) :
      IdemSchema s → isDefined dflt = true →
      parse s dflt = .ok (.Ok dflt) → IdemSchema (.defaulted s dflt)

/-- Re-running a successful field loop against its own output object
reproduces the output, provided the children are idempotent and the shape
keys are distinct. -/
theorem parseShape_reparse :
    ∀ (shape : List (String × SchemaExpr)),
      (∀ kc ∈ shape, ∀ input v, parse kc.2 input = .ok (.Ok v) →
        isDefined v = true ∧ parse kc.2 v = .ok (.Ok v)) →
      (shape.map Prod.fst).Nodup →
      ∀ (input : JSVal) (fs : List (String × JSVal)),
        parseShape shape input = .ok (.Ok fs) →
        parseShape shape (.objNull fs) = .ok (.Ok fs) := by
  intro shape
  induction shape with
  | nil =>
    intro _ _ input fs h
    simp [parseShape] at h
    subst h
    simp [parseShape]
  | cons kc rest ih =>
    obtain ⟨key, child⟩ := kc
    intro hidem hnodup input fs h
    cases hp : parse child (getProp input key) with
    | error e => simp only [parseShape, hp] at h; simp at h
    | ok r =>
      cases r with
      | Err e => rw [parseShape_cons_err hp] at h; simp at h
      | Ok v =>
        rw [parseShape_cons_ok hp] at h
        cases hrec : parseShape rest input with
        | error e => rw [hrec] at h; simp at h
        | ok r2 =>
          rw [hrec] at h
          cases r2 with
          | Err e => simp at h
          | Ok fs' =>
            simp at h
            subst h
            have hchild := hidem (key, child) (by simp) (getProp input key) v hp
            simp only [List.map_cons, List.nodup_cons] at hnodup
            have hget : getProp (.objNull ((key, v) :: fs')) key = v := by
              simp [getProp, List.lookup]
            have hhead : parse child (getProp (.objNull ((key, v) :: fs')) key) =
                .ok (.Ok v) := by
              rw [hget]; exact hchild.2
            have hcongr : parseShape rest (.objNull ((key, v) :: fs')) =
                parseShape rest (.objNull fs') := by
              apply parseShape_congr
              intro k hk
              have hkne : k ≠ key := fun heq => hnodup.1 (heq ▸ hk)
              have hbeq : (k == key) = false := by simp [hkne]
              simp [getProp, List.lookup, hbeq]
            have hih := ih (fun kc hkc => hidem kc (by simp [hkc]))
              hnodup.2 input fs' hrec
            rw [parseShape_cons_ok hhead, hcongr, hih]
            rfl

/-- Re-running a successful tuple loop against its own output array (offset
back to position zero) reproduces the output, provided the members are
idempotent. -/
theorem parseTupleElems_reparse :
    ∀ (schemas : List SchemaExpr),
      (∀ s ∈ schemas, ∀ input v, parse s input = .ok (.Ok v) →
        isDefined v = true ∧ parse s v = .ok (.Ok v)) →
      ∀ (elems vs w : List JSVal) (i k : Nat),
        parseTupleElems elems schemas i = .ok (.Ok vs) →
        (∀ j, j < schemas.length → w.getD (k + j) .undefined = vs.getD j .undefined) →
        parseTupleElems w schemas k = .ok (.Ok vs) := by
  intro schemas
  induction schemas with
  | nil =>
    intro _ elems vs w i k h _
    simp [parseTupleElems] at h
    subst h
    simp [parseTupleElems]
  | cons s rest ih =>
    intro hidem elems vs w i k h hw
    cases hp : parse s (elems.getD i .undefined) with
    | error e => simp only [parseTupleElems, hp] at h; simp at h
    | ok r =>
      cases r with
      | Err e => rw [parseTupleElems_cons_err hp] at h; simp at h
      | Ok v =>
        rw [parseTupleElems_cons_ok hp] at h
        cases hrec : parseTupleElems elems rest (i + 1) with
        | error e => rw [hrec] at h; simp at h
        | ok r2 =>
          rw [hrec] at h
          cases r2 with
          | Err e => simp at h
          | Ok vs' =>
            simp at h
            subst h
            have hsv := hidem s (by simp) (elems.getD i .undefined) v hp
            have hw0 : w.getD k .undefined = v := by
              have h0 := hw 0 (by simp)
              simpa using h0
            have hhead : parse s (w.getD k .undefined) = .ok (.Ok v) := by
              rw [hw0]; exact hsv.2
            have hw' : ∀ j, j < rest.length →
                w.getD (k + 1 + j) .undefined = vs'.getD j .undefined := by
              intro j hj
              have hj1 := hw (j + 1) (by simp; omega)
              have harith : k + (j + 1) = k + 1 + j := by omega
              rw [harith] at hj1
              simpa using hj1
            rw [parseTupleElems_cons_ok hhead,
              ih (fun s' hs' => hidem s' (by simp [hs'])) elems vs' w
                (i + 1) (k + 1) hrec hw']
            rfl

/-- Parse is idempotent on the `IdemSchema` class, and its successful
outputs there are defined values. -/
theorem parse_idem (s : SchemaExpr) (hs : IdemSchema s) :
    ∀ input v, parse s input = .ok (.Ok v) →
      isDefined v = true ∧ parse s v = .ok (.Ok v) := by
  induction hs with
  | string ps msg hpi =>
    intro input v h
    cases input
    case str s0 =>
      simp only [parse] at h
      cases hrp : runPipeline s0 (ps.map evalStrPipe) with
      | error e => rw [hrp] at h; simp at h
      | ok r =>
        rw [hrp] at h
        cases r with
        | Err e => simp at h
        | Ok s1 =>
          simp at h
          subst h
          refine ⟨rfl, ?_⟩
          simp only [parse, hpi s0 s1 hrp]
          rfl
    all_goals simp [parse, createErr] at h
  | number ps msg hpi =>
    intro input v h
    cases input
    case num n =>
      cases n
      case finite q =>
        simp only [parse] at h
        cases hrp : runPipeline q (ps.map evalNumPipe) with
        | error e => rw [hrp] at h; simp at h
        | ok r =>
          rw [hrp] at h
          cases r with
          | Err e => simp at h
          | Ok q1 =>
            simp at h
            subst h
            refine ⟨rfl, ?_⟩
            simp only [parse, hpi q q1 hrp]
            rfl
      all_goals simp [parse, createErr] at h
    all_goals simp [parse, createErr] at h
  | boolean msg =>
    intro input v h
    cases input <;> simp [parse, createErr, isBoolean] at h
    case bool b =>
      subst h
      exact ⟨rfl, by simp [parse, isBoolean]⟩
  | date msg =>
    intro input v h
    cases input
    case date t =>
      cases t
      case finite q =>
        simp [parse] at h
        subst h
        exact ⟨rfl, by simp [parse]⟩
      all_goals simp [parse, createErr] at h
    all_goals simp [parse, createErr] at h
  | literal c msg =>
    intro input v h
    cases hoi : objectIs c input with
    | false => simp [parse, hoi, createErr] at h
    | true =>
      simp [parse, hoi] at h
      subst h
      have hdef : isDefined input = true := by
        cases c <;> cases input <;> simp_all [objectIs, isDefined]
      exact ⟨hdef, by simp [parse, hoi]⟩
  | object shape msg hall hnodup ih =>
    intro input v h
    cases input
    case obj fields =>
      rw [parse_object_obj] at h
      cases hps : parseShape shape (.obj fields) with
      | error e => rw [hps] at h; simp at h
      | ok r =>
        rw [hps] at h
        cases r with
        | Err e => simp at h
        | Ok fs =>
          simp at h
          subst h
          refine ⟨rfl, ?_⟩
          rw [parse_object_objNull, parseShape_reparse shape ih hnodup
            (.obj fields) fs hps]
          rfl
    case objNull fields =>
      rw [parse_object_objNull] at h
      cases hps : parseShape shape (.objNull fields) with
      | error e => rw [hps] at h; simp at h
      | ok r =>
        rw [hps] at h
        cases r with
        | Err e => simp at h
        | Ok fs =>
          simp at h
          subst h
          refine ⟨rfl, ?_⟩
          rw [parse_object_objNull, parseShape_reparse shape ih hnodup
            (.objNull fields) fs hps]
          rfl
    all_goals simp [parse, isObject, createErr] at h
  | tuple ss msg hall ih =>
    intro input v h
    cases input
    case arr elems =>
      rw [parse_tuple_arr] at h
      cases hte : parseTupleElems elems ss 0 with
      | error e => rw [hte] at h; simp at h
      | ok r =>
        rw [hte] at h
        cases r with
        | Err e => simp at h
        | Ok vs =>
          simp at h
          subst h
          refine ⟨rfl, ?_⟩
          rw [parse_tuple_arr, parseTupleElems_reparse ss ih elems vs vs 0 0
            hte (fun j hj => by simp)]
          rfl
    all_goals simp [parse, createErr] at h
  | defaulted s dflt hsub hdef hrevalid ih =>
    intro input v h
    cases hd : isDefined input with
    | false =>
      simp only [parse] at h
      rw [hd] at h
      simp at h
      subst h
      exact ⟨hdef, by simp [parse, hdef, hrevalid]⟩
    | true =>
      simp only [parse] at h
      rw [hd] at h
      simp at h
      obtain ⟨hdefv, hreparse⟩ := ih input v h
      exact ⟨hdefv, by simp [parse, hdefv, hreparse]⟩

/-- Counterexample to C2 as stated: `optional(number())` and
`list(number())` are pipeline-free, yet re-parsing their own successful
output fails. `optional(number()).parse(null)` is `Ok(None)`, and parsing
the `None` container instance again is an `Err` (it is a defined non-number
object); `list(number()).parse([])` is `Ok(List.from([]))`, and parsing the
`List` container instance again is an `Err` (it is not an array). -/
theorem C2_idempotence_counterexample :
    parse (.optional (.number [] "Expected number")) .null =
      .ok (.Ok (.optInst none)) ∧
    parse (.optional (.number [] "Expected number")) (.optInst none) =
      .ok (.Err { path := [], message := "Expected number", input := .optInst none }) ∧
    parse (.list (.number [] "Expected number") "Expected array") (.arr []) =
      .ok (.Ok (.listInst [])) ∧
    parse (.list (.number [] "Expected number") "Expected array") (.listInst []) =
      .ok (.Err { path := [], message := "Expected array", input := .listInst [] }) := by
  refine ⟨?_, ?_, ?_, ?_⟩ <;> simp [parse, parseElems, isDefined, createErr]

/-- C2 (amended). Idempotence of parse holds on the `IdemSchema` class:
string and number schemas whose pipelines are idempotent, boolean, date and
literal schemas, objects with distinct field names and idempotent children,
tuples of idempotent members, and defaulted wrappers whose default value
re-validates to itself. In that class, `parse(i) = Ok(v)` implies
`parse(v) = Ok(v)`. The claim fails as stated for `optional` and `list`
(their outputs are container instances the same schema rejects) and for
unions mixing transforming members. -/
theorem C2_parse_idempotent_amended (s : SchemaExpr) (hs : IdemSchema s)
    (input v : JSVal) (h : parse s input = .ok (.Ok v)) :
    parse s v = .ok (.Ok v) :=
  (parse_idem s hs input v h).2

/-- Witness for the amended C2: a one-field number object re-validates its
own output. -/
theorem C2_parse_idempotent_amended_witness :
    parse (.object [("a", .number [] "Expected number")] "Expected object")
        (.obj [("a", .num (.finite 1)), ("b", .bool true)]) =
      .ok (.Ok (.objNull [("a", .num (.finite 1))])) ∧
    parse (.object [("a", .number [] "Expected number")] "Expected object")
        (.objNull [("a", .num (.finite 1))]) =
      .ok (.Ok (.objNull [("a", .num (.finite 1))])) := by
  have hidem : IdemSchema
      (.object [("a", .number [] "Expected number")] "Expected object") := by
    refine IdemSchema.object _ _ ?_ (by simp)
    intro kc hkc
    simp at hkc
    rw [hkc]
    exact IdemSchema.number [] "Expected number" PipelineIdem_nil
  have h1 : parse (.object [("a", .number [] "Expected number")] "Expected object")
      (.obj [("a", .num (.finite 1)), ("b", .bool true)]) =
      .ok (.Ok (.objNull [("a", .num (.finite 1))])) := by
    simp [parse, parseShape, getProp, isObject, List.lookup, runPipeline]
  exact ⟨h1, C2_parse_idempotent_amended _ hidem _ _ h1⟩

end Footgun
